import Mathlib

/-!
Verification of the EventHorizon backend core logic.

This file gives a shallow embedding of the two core subsystems of the
repository and proves properties of them:

* the team-preference normalization algorithm
  (`_calculate_normalized_category_distribution` and the recommendation
  endpoint `get_team_recommendations` in `backend/app/api/endpoints/ai.py`);
* the event lifecycle endpoints (`exclude_activity`, `include_activity`,
  `remove_proposed_activity`, `vote_on_activity`, `create_date_option`,
  `respond_to_date`, `select_activity` in
  `backend/app/api/endpoints/events.py`, with the helpers
  `ensure_user_in_room` and `require_event_organizer` from
  `backend/app/api/helpers.py`).

Python floats are modelled by exact rationals (`ℚ`); `round(x, 1)` is
modelled by `round1` (round to the nearest tenth).  Database tables are
modelled as lists of rows; a SQL `UPDATE ... WHERE` is a `List.map` with a
conditional, an upsert is a `find?` followed by an update or an append,
and raising an `HTTPException` is returning `Except.error`, which leaves
the database unchanged (the request's transaction is rolled back).
-/

namespace EventHorizon

/-! ## Team Preference Aggregator (backend/app/api/endpoints/ai.py) -/

/-- An activity, reduced to the field the aggregation reads: its category
(`_category_value(activity.category)`, a string). -/
structure Activity where
  category : String
deriving DecidableEq

/-- A room member, reduced to the field the aggregation reads:
`member.favorite_activities`. -/
structure Member where
  favorites : List Activity
deriving DecidableEq

/-- One key insertion into a Python dict: keys are kept in first-insertion
order, duplicates are ignored. -/
def addKey (ks : List String) (c : String) : List String :=
  if c ∈ ks then ks else ks ++ [c]

/-- The keys of `availability_counts`, in insertion order
(`categories = list(availability_counts.keys())`). -/
def availKeys (activities : List Activity) : List String :=
  activities.foldl (fun ks a => addKey ks a.category) []

/-- `availability_counts[c]`: number of catalog activities in category `c`. -/
def availCount (activities : List Activity) (c : String) : ℕ :=
  (activities.filter (fun a => decide (a.category = c))).length

/-- `total_available = sum(availability_counts.values())`. -/
def totalAvailable (activities : List Activity) : ℕ :=
  ((availKeys activities).map (availCount activities)).sum

/-- `member_counts[c]` for one member: favorites in category `c`; a favorite
whose category is not in the catalog is skipped
(`if cat_val not in availability_counts: continue`). -/
def memberCatCount (activities : List Activity) (m : Member) (c : String) : ℕ :=
  (m.favorites.filter
    (fun a => decide (a.category = c ∧ a.category ∈ availKeys activities))).length

/-- `member_total = sum(member_counts.values())`: this member's favorites whose
category is in the catalog. -/
def memberTotal (activities : List Activity) (m : Member) : ℕ :=
  (m.favorites.filter (fun a => decide (a.category ∈ availKeys activities))).length

/-- `favorites_counts[c]`: raw favorite count of category `c` over all members. -/
def favCount (members : List Member) (activities : List Activity) (c : String) : ℕ :=
  (members.map (fun m => memberCatCount activities m c)).sum

/-- `total_favorites`: all catalog-matching favorites over all members. -/
def totalFavorites (members : List Member) (activities : List Activity) : ℕ :=
  (members.map (memberTotal activities)).sum

/-- The members the accumulation loop does not skip: those with
`member_total > 0`. -/
def contribMembers (members : List Member) (activities : List Activity) : List Member :=
  members.filter (fun m => decide (0 < memberTotal activities m))

/-- `contributing_users`: members with at least one catalog-matching favorite. -/
def contributingUsers (members : List Member) (activities : List Activity) : ℕ :=
  (contribMembers members activities).length

/-- `availability_share[c] = availability_counts[c] / total_available`. -/
def availShare (activities : List Activity) (c : String) : ℚ :=
  (availCount activities c : ℚ) / (totalAvailable activities : ℚ)

/-- One member's contribution to `normalized_scores[c]`:
`user_share / availability_share[c]`, skipped when the share is zero. -/
def memberNormContrib (activities : List Activity) (m : Member) (c : String) : ℚ :=
  if availShare activities c = 0 then 0
  else ((memberCatCount activities m c : ℚ) / (memberTotal activities m : ℚ)) /
    availShare activities c

/-- `normalized_scores[c]` after averaging: accumulated over members with
`member_total > 0`, then divided by `contributing_users`. -/
def normScore (members : List Member) (activities : List Activity) (c : String) : ℚ :=
  (((contribMembers members activities).map
    (fun m => memberNormContrib activities m c)).sum) /
  (contributingUsers members activities : ℚ)

/-- `display_categories`: categories with `favorites_counts[category] > 0`. -/
def displayCategories (members : List Member) (activities : List Activity) : List String :=
  (availKeys activities).filter (fun c => decide (0 < favCount members activities c))

/-- `score_sum`: sum of the normalized scores over the display categories. -/
def scoreSum (members : List Member) (activities : List Activity) : ℚ :=
  ((displayCategories members activities).map (normScore members activities)).sum

/-- Python's `round(x, 1)`: round to one decimal place. -/
def round1 (q : ℚ) : ℚ := (round (10 * q) : ℤ) / 10

/-- The exact (pre-rounding) percentage of a category in the normalized
distribution: `normalized_scores[cat] / score_sum * 100`. -/
def pctExact (members : List Member) (activities : List Activity) (c : String) : ℚ :=
  normScore members activities c / scoreSum members activities * 100

/-- An entry of `normalized_distribution` / `raw_distribution`:
`{"category": ..., "percentage": ..., "count": ...}`. -/
structure DistEntry where
  category : String
  percentage : ℚ
  count : ℕ
deriving DecidableEq

/-- An entry of `availability_distribution`: `{"category": ..., "count": ...}`. -/
structure AvailEntry where
  category : String
  count : ℕ
deriving DecidableEq

/-- The `normalized_distribution` entry built for a display category. -/
def ndEntry (members : List Member) (activities : List Activity) (c : String) : DistEntry :=
  ⟨c, round1 (pctExact members activities c), favCount members activities c⟩

/-- The `raw_distribution` entry built for a display category:
`round(favorites_counts[cat] / total_favorites * 100, 1)`. -/
def rawEntry (members : List Member) (activities : List Activity) (c : String) : DistEntry :=
  ⟨c, round1 ((favCount members activities c : ℚ) /
      (totalFavorites members activities : ℚ) * 100),
    favCount members activities c⟩

/-- Stable insertion for a descending sort by percentage.  A stable sort is
uniquely determined by the key order, so this agrees with Python's
`list.sort(key=..., reverse=True)`. -/
def insertPctDesc (x : DistEntry) : List DistEntry → List DistEntry
  | [] => [x]
  | y :: ys => if y.percentage > x.percentage then y :: insertPctDesc x ys else x :: y :: ys

/-- Stable descending sort by percentage. -/
def sortPctDesc (l : List DistEntry) : List DistEntry := l.foldr insertPctDesc []

/-- Stable insertion for a descending sort by count. -/
def insertCntDesc (x : AvailEntry) : List AvailEntry → List AvailEntry
  | [] => [x]
  | y :: ys => if y.count > x.count then y :: insertCntDesc x ys else x :: y :: ys

/-- Stable descending sort by count. -/
def sortCntDesc (l : List AvailEntry) : List AvailEntry := l.foldr insertCntDesc []

/-- `_calculate_normalized_category_distribution(members, activities)`:
returns `(normalized_distribution, raw_distribution,
availability_distribution, total_favorites)`.  The guard chain mirrors the
source: no catalog, no favorites, no contributing user, no display
category, or a non-positive score sum each yield empty distributions. -/
def calcNormalized (members : List Member) (activities : List Activity) :
    List DistEntry × List DistEntry × List AvailEntry × ℕ :=
  if totalAvailable activities = 0 then ([], [], [], 0)
  else if totalFavorites members activities = 0 then ([], [], [], 0)
  else if contributingUsers members activities = 0 then
    ([], [], [], totalFavorites members activities)
  else if displayCategories members activities = [] then
    ([], [], [], totalFavorites members activities)
  else if scoreSum members activities ≤ 0 then
    ([], [], [], totalFavorites members activities)
  else
    (sortPctDesc ((displayCategories members activities).map
        (ndEntry members activities)),
      sortPctDesc ((displayCategories members activities).map
        (rawEntry members activities)),
      sortCntDesc ((availKeys activities).map
        (fun c => ⟨c, availCount activities c⟩)),
      totalFavorites members activities)

/-! ## Recommendation endpoint (`get_team_recommendations` in ai.py)

The external AI call (`ai_service.analyze_team_preferences`) is modelled as
an oracle `aiCall : ℕ → Except String AiRes` giving the outcome of the
n-th invocation; an exception is `Except.error msg` with `msg = str(e)`.
The handler consults `aiCall 0` only (the source performs a single call
inside one `try` block, with no retry loop), so its result depends only on
the first oracle value.  Raising `HTTPException(status_code=500, ...)` is
modelled as `Except.error (500, detail)`. -/

/-- The response dict of the team-analysis endpoint (`TeamPreferenceSummary`),
reduced to the fields the handler itself constructs or overwrites. -/
structure AiRes where
  categoryDistribution : List DistEntry
  preferredGoals : List String
  recommendedActivityIds : List String
  teamVibe : String
  synergyScore : ℤ
  strengths : List String
  challenges : List String
  teamPersonality : String
  socialVibe : String
  insights : List String
  memberCount : ℕ
deriving DecidableEq

/-- The synthetic fallback dict built when the AI call failed but
`total_favorites > 0` (the literal in `get_team_recommendations`). -/
def fallbackAiRes (memberCount : ℕ) : AiRes where
  categoryDistribution := []
  preferredGoals := ["teambuilding"]
  recommendedActivityIds := []
  teamVibe := "mixed"
  synergyScore := 50
  strengths := ["Echte Nutzerdaten vorhanden"]
  challenges := ["KI-Analyse aktuell eingeschränkt"]
  teamPersonality := "Die Datensammler"
  socialVibe := "medium"
  insights := ["KI-Analyse nicht verfügbar. Anzeige basiert auf echten Nutzerdaten."]
  memberCount := memberCount

/-- `get_team_recommendations`, from the point where the room's members and
the catalog have been loaded.  `cached` is the `TEAM_ANALYSIS_CACHE` entry
for the request's fingerprint (`none` on a cache miss). -/
def getTeamRecommendations (members : List Member) (activities : List Activity)
    (cached : Option AiRes) (aiCall : ℕ → Except String AiRes) :
    Except (ℕ × String) AiRes :=
  let nd := (calcNormalized members activities).1
  let tf := (calcNormalized members activities).2.2.2
  match cached with
  | some c =>
    .ok { c with categoryDistribution := if 0 < tf then nd else [],
                 memberCount := members.length }
  | none =>
    match aiCall 0 with
    | .ok r =>
      let r1 := if 0 < tf then { r with categoryDistribution := nd } else r
      .ok { r1 with memberCount := members.length }
    | .error msg =>
      if 0 < tf then
        .ok { (fallbackAiRes members.length) with
                categoryDistribution := nd
                memberCount := members.length }
      else
        .error (500, "AI-Analyse fehlgeschlagen: " ++ msg)

/-! ## Event lifecycle (backend/app/api/endpoints/events.py)

Ids (UUIDs in the source) are modelled as `ℕ`; `phase` and `vote` are the
strings the handlers compare against.  Each table is a list of rows.  Each
endpoint returns `Except ApiError DB`: `Except.error` corresponds to
`raise HTTPException` before `db.commit()`, so the transaction is rolled
back and the returned value carries no state change. -/

/-- The HTTP error classes the modelled handlers raise. -/
inductive ApiError where
  | notFound
  | forbidden
  | badRequest
deriving DecidableEq

/-- A `vote` row: composite key `(event_id, activity_id, user_id)`. -/
structure VoteRow where
  eventId : ℕ
  activityId : ℕ
  userId : ℕ
  vote : String
deriving DecidableEq

/-- An `activity` row, reduced to what `vote_on_activity` touches. -/
structure ActivityRow where
  id : ℕ
  totalUpvotes : ℤ
deriving DecidableEq

/-- An `event` row, reduced to the fields the modelled handlers touch. -/
structure EventRow where
  id : ℕ
  roomId : ℕ
  createdBy : ℕ
  phase : String
  proposed : List ℕ
  excluded : List ℕ
  chosenActivityId : Option ℕ
  finalDateOptionId : Option ℕ
deriving DecidableEq

/-- A `room` row (`created_by_user_id` is what `ensure_user_in_room` reads). -/
structure RoomRow where
  id : ℕ
  createdBy : ℕ
deriving DecidableEq

/-- A `room_member` row. -/
structure RoomMemberRow where
  roomId : ℕ
  userId : ℕ
deriving DecidableEq

/-- A `date_option` row. -/
structure DateOptionRow where
  id : ℕ
  eventId : ℕ
  date : ℕ
  startTime : Option String
  endTime : Option String
deriving DecidableEq

/-- A `date_response` row: composite key `(date_option_id, user_id)`. -/
structure DateResponseRow where
  dateOptionId : ℕ
  userId : ℕ
  response : String
  isPriority : Bool
  contribution : ℚ
  note : Option String
deriving DecidableEq

/-- An `event_participant` row: composite key `(event_id, user_id)`. -/
structure ParticipantRow where
  eventId : ℕ
  userId : ℕ
  isOrganizer : Bool
  hasVoted : Bool
deriving DecidableEq

/-- The database state the modelled handlers read and write. -/
structure DB where
  rooms : List RoomRow
  roomMembers : List RoomMemberRow
  events : List EventRow
  votes : List VoteRow
  activities : List ActivityRow
  dateOptions : List DateOptionRow
  dateResponses : List DateResponseRow
  participants : List ParticipantRow
deriving DecidableEq

/-- `resolve_event_identifier` by id (the short-code path is not modelled:
all claims address lookups by id). -/
def findEvent (db : DB) (eid : ℕ) : Option EventRow :=
  db.events.find? (fun e => decide (e.id = eid))

/-- `UPDATE event SET ... WHERE id = eid`. -/
def updateEventRow (db : DB) (eid : ℕ) (f : EventRow → EventRow) : DB :=
  { db with events := db.events.map (fun e => if e.id = eid then f e else e) }

/-- `ensure_user_in_room` (helpers.py): insert-or-ignore a room membership;
the room's creator is implicitly a member, a missing room is a no-op. -/
def ensureUserInRoom (db : DB) (e : EventRow) (uid : ℕ) : DB :=
  match db.rooms.find? (fun r => decide (r.id = e.roomId)) with
  | none => db
  | some room =>
    if room.createdBy = uid then db
    else if db.roomMembers.any (fun m => decide (m.roomId = e.roomId ∧ m.userId = uid)) then db
    else { db with roomMembers := db.roomMembers ++ [⟨e.roomId, uid⟩] }

/-- The `require_event_organizer` test (helpers.py): the event's creator, or
an `EventParticipant` row flagged `is_organizer`. -/
def isEventOrganizer (db : DB) (e : EventRow) (uid : ℕ) : Bool :=
  decide (e.createdBy = uid) ||
    (db.participants.find?
      (fun p => decide (p.eventId = e.id ∧ p.userId = uid ∧ p.isOrganizer = true))).isSome

/-- `exclude_activity`: creator-only, proposal phase only; adds the activity
id to `excluded_activity_ids` unless already present. -/
def excludeActivity (db : DB) (uid eid aid : ℕ) : Except ApiError DB :=
  match findEvent db eid with
  | none => .error .notFound
  | some e =>
    if e.createdBy ≠ uid then .error .forbidden
    else if e.phase ≠ "proposal" then .error .badRequest
    else .ok (updateEventRow db e.id (fun ev =>
      { ev with excluded := if aid ∈ ev.excluded then ev.excluded else ev.excluded ++ [aid] }))

/-- `include_activity`: creator-only, proposal phase only; removes the
activity id from `excluded_activity_ids` when present. -/
def includeActivity (db : DB) (uid eid aid : ℕ) : Except ApiError DB :=
  match findEvent db eid with
  | none => .error .notFound
  | some e =>
    if e.createdBy ≠ uid then .error .forbidden
    else if e.phase ≠ "proposal" then .error .badRequest
    else .ok (updateEventRow db e.id (fun ev =>
      { ev with excluded :=
          if aid ∈ ev.excluded then ev.excluded.filter (fun x => decide (x ≠ aid))
          else ev.excluded }))

/-- `remove_proposed_activity`: creator-only, proposal phase only; removes
the id from `proposed_activity_ids` and deletes the votes on that
(event, activity) pair; a no-op (success) when the id is not proposed. -/
def removeProposedActivity (db : DB) (uid eid aid : ℕ) : Except ApiError DB :=
  match findEvent db eid with
  | none => .error .notFound
  | some e =>
    if e.createdBy ≠ uid then .error .forbidden
    else if e.phase ≠ "proposal" then .error .badRequest
    else if aid ∉ e.proposed then .ok db
    else
      let db1 := updateEventRow db e.id (fun ev =>
        { ev with proposed := ev.proposed.filter (fun x => decide (x ≠ aid)) })
      .ok { db1 with votes :=
        db1.votes.filter (fun v => decide (¬(v.eventId = e.id ∧ v.activityId = aid))) }

/-- Does this vote row belong to the composite key `(eid, aid, uid)`? -/
def voteKey (eid aid uid : ℕ) (r : VoteRow) : Bool :=
  decide (r.eventId = eid ∧ r.activityId = aid ∧ r.userId = uid)

/-- The vote upsert inside `vote_on_activity`: update the existing row's
value or insert a new row. -/
def upsertVote (votes : List VoteRow) (eid aid uid : ℕ) (v : String) : List VoteRow :=
  match votes.find? (voteKey eid aid uid) with
  | some _ => votes.map (fun r => if voteKey eid aid uid r then { r with vote := v } else r)
  | none => votes ++ [⟨eid, aid, uid, v⟩]

/-- The count of this user's other `"for"` votes on the same activity in
other events (`other_votes_count`). -/
def otherForCount (votes : List VoteRow) (eid aid uid : ℕ) : ℕ :=
  (votes.filter (fun r =>
    decide (r.userId = uid ∧ r.activityId = aid ∧ r.vote = "for" ∧ r.eventId ≠ eid))).length

/-- The counter update on the activity row: `+= 1`, or clamped
`= max(0, ... - 1)`; a missing activity row is a no-op. -/
def bumpUpvotes (acts : List ActivityRow) (aid : ℕ) (inc : Bool) : List ActivityRow :=
  match acts.find? (fun a => decide (a.id = aid)) with
  | none => acts
  | some _ => acts.map (fun a =>
      if a.id = aid then
        { a with totalUpvotes := if inc then a.totalUpvotes + 1 else max 0 (a.totalUpvotes - 1) }
      else a)

/-- The conditional counter step of `vote_on_activity`: only when the "for"
status flipped and the user holds no other "for" vote on this activity. -/
def voteCounterStep (db : DB) (eid aid uid : ℕ) (oldIsFor newIsFor : Bool) : DB :=
  if oldIsFor ≠ newIsFor then
    let oc := otherForCount db.votes eid aid uid
    let shouldInc := newIsFor && decide (oc = 0)
    let shouldDec := !newIsFor && decide (oc = 0)
    if shouldInc || shouldDec then
      { db with activities := bumpUpvotes db.activities aid shouldInc }
    else db
  else db

/-- The participant upsert of `vote_on_activity`: mark `has_voted`, creating
the participant row (with `is_organizer` defaulting to false) if absent. -/
def voteParticipantStep (db : DB) (eid uid : ℕ) : DB :=
  match db.participants.find? (fun p => decide (p.eventId = eid ∧ p.userId = uid)) with
  | some _ => { db with participants := db.participants.map (fun p =>
      if p.eventId = eid ∧ p.userId = uid then { p with hasVoted := true } else p) }
  | none => { db with participants := db.participants ++ [⟨eid, uid, false, true⟩] }

/-- The body of `vote_on_activity` once the event is resolved. -/
def applyVote (db : DB) (e : EventRow) (uid aid : ℕ) (v : String) : DB :=
  let db1 := ensureUserInRoom db e uid
  let oldIsFor : Bool :=
    match db1.votes.find? (voteKey e.id aid uid) with
    | some r => decide (r.vote = "for")
    | none => false
  let newIsFor : Bool := decide (v = "for")
  let db2 := { db1 with votes := upsertVote db1.votes e.id aid uid v }
  let db3 := voteCounterStep db2 e.id aid uid oldIsFor newIsFor
  voteParticipantStep db3 e.id uid

/-- `vote_on_activity`: no phase gate; upsert the vote, maintain the global
`total_upvotes` counter with cross-event deduplication, mark participation. -/
def voteOnActivity (db : DB) (uid eid aid : ℕ) (v : String) : Except ApiError DB :=
  match findEvent db eid with
  | none => .error .notFound
  | some e => .ok (applyVote db e uid aid v)

/-- Python truthiness of an optional string field (an empty string is falsy). -/
def pyStrTruthy (o : Option String) : Bool :=
  match o with
  | some s => !(s == "")
  | none => false

/-- `create_date_option`: scheduling phase only, at most 10 date options per
event, `end_time` requires `start_time`. -/
def createDateOption (db : DB) (uid eid newId date : ℕ)
    (startTime endTime : Option String) : Except ApiError DB :=
  match findEvent db eid with
  | none => .error .notFound
  | some e =>
    let db1 := ensureUserInRoom db e uid
    if e.phase ≠ "scheduling" then .error .badRequest
    else if 10 ≤ (db1.dateOptions.filter (fun d => decide (d.eventId = e.id))).length then
      .error .badRequest
    else if pyStrTruthy endTime && !pyStrTruthy startTime then .error .badRequest
    else .ok { db1 with dateOptions := db1.dateOptions ++ [⟨newId, e.id, date, startTime, endTime⟩] }

/-- The ids of an event's date options. -/
def eventOptionIds (db : DB) (eid : ℕ) : List ℕ :=
  (db.dateOptions.filter (fun d => decide (d.eventId = eid))).map (fun d => d.id)

/-- The priority-clearing `UPDATE` of `respond_to_date`: unset `is_priority`
on all of this user's responses to the event's date options. -/
def clearPriorities (resps : List DateResponseRow) (uid : ℕ) (ids : List ℕ) :
    List DateResponseRow :=
  resps.map (fun r =>
    if r.userId = uid ∧ r.dateOptionId ∈ ids then { r with isPriority := false } else r)

/-- The response upsert of `respond_to_date`. -/
def upsertResponse (resps : List DateResponseRow) (doId uid : ℕ) (resp : String)
    (ip : Bool) (contrib : ℚ) (note : Option String) : List DateResponseRow :=
  match resps.find? (fun r => decide (r.dateOptionId = doId ∧ r.userId = uid)) with
  | some _ => resps.map (fun r =>
      if r.dateOptionId = doId ∧ r.userId = uid then
        { r with response := resp, isPriority := ip, contribution := contrib, note := note }
      else r)
  | none => resps ++ [⟨doId, uid, resp, ip, contrib, note⟩]

/-- `response_in.contribution or 0.0` (Python truthiness: `0.0` is falsy). -/
def contribOrZero (c : Option ℚ) : ℚ :=
  match c with
  | some v => if v = 0 then 0 else v
  | none => 0

/-- `respond_to_date`: scheduling phase only; when `is_priority` is set,
first clear the user's priorities across the event's date options, then
upsert the response row. -/
def respondToDate (db : DB) (uid eid doId : ℕ) (resp : String) (ip : Bool)
    (contribution : Option ℚ) (note : Option String) : Except ApiError DB :=
  match findEvent db eid with
  | none => .error .notFound
  | some e =>
    let db1 := ensureUserInRoom db e uid
    if e.phase ≠ "scheduling" then .error .badRequest
    else
      let ids := eventOptionIds db1 e.id
      let db2 :=
        if ip then
          if ids ≠ [] then
            { db1 with dateResponses := clearPriorities db1.dateResponses uid ids }
          else db1
        else db1
      .ok { db2 with dateResponses :=
        upsertResponse db2.dateResponses doId uid resp ip (contribOrZero contribution) note }

/-- `select_activity`: organizer-only; sets `chosen_activity_id` and forces
the phase to `"scheduling"`. -/
def selectActivity (db : DB) (uid eid aid : ℕ) : Except ApiError DB :=
  match findEvent db eid with
  | none => .error .notFound
  | some e =>
    let db1 := ensureUserInRoom db e uid
    if isEventOrganizer db1 e uid then
      .ok (updateEventRow db1 e.id (fun ev =>
        { ev with chosenActivityId := some aid, phase := "scheduling" }))
    else .error .forbidden

/-- `total_upvotes` of one activity row, as the handler reads it. -/
def actUpvotes (acts : List ActivityRow) (aid : ℕ) : Option ℤ :=
  (acts.find? (fun a => decide (a.id = aid))).map (fun a => a.totalUpvotes)

/-- The uniqueness invariant of the `vote` table's composite primary key. -/
def uniqueVoteKeys (votes : List VoteRow) : Prop :=
  votes.Pairwise (fun a b =>
    ¬(a.eventId = b.eventId ∧ a.activityId = b.activityId ∧ a.userId = b.userId))

/-- The uniqueness invariant of the `date_response` composite primary key. -/
def uniqueResponseKeys (resps : List DateResponseRow) : Prop :=
  resps.Pairwise (fun a b => ¬(a.dateOptionId = b.dateOptionId ∧ a.userId = b.userId))

/-! ## Concrete inputs used by witnesses and the counterexample -/

/-- Catalog for the C1 counterexample: 2 activities of category A, 3 of B,
1 of C. -/
def cexActivities : List Activity := [⟨"A"⟩, ⟨"A"⟩, ⟨"B"⟩, ⟨"B"⟩, ⟨"B"⟩, ⟨"C"⟩]

/-- Members for the C1 counterexample: one member favoring A once and C
three times, one member favoring B once — raw counts of A and B are equal. -/
def cexMembers : List Member :=
  [⟨[⟨"A"⟩, ⟨"C"⟩, ⟨"C"⟩, ⟨"C"⟩]⟩, ⟨[⟨"B"⟩]⟩]

/-- Catalog for the C1 witness: category A rarer than category B. -/
def wRareActivities : List Activity := [⟨"A"⟩, ⟨"B"⟩, ⟨"B"⟩]

/-- Member for the C1 witness: one favorite in each of A and B. -/
def wRareMembers : List Member := [⟨[⟨"A"⟩, ⟨"B"⟩]⟩]

/-- One-activity catalog used by the C2 and C9 witnesses. -/
def wFoodActivities : List Activity := [⟨"food"⟩]

/-- One member with one favorite, used by the C2 and C9 witnesses. -/
def wFoodMembers : List Member := [⟨[⟨"food"⟩]⟩]

/-- An AI-call oracle that always raises, used by the C9 witness. -/
def wFailCall : ℕ → Except String AiRes := fun _ => .error "kaputt"

/-- A small concrete database used by the event-endpoint witnesses. -/
def wDB : DB where
  rooms := [⟨100, 7⟩]
  roomMembers := []
  events :=
    [⟨1, 100, 7, "voting", [5], [], none, none⟩,
     ⟨2, 100, 7, "scheduling", [], [], none, none⟩,
     ⟨3, 100, 7, "proposal", [], [], none, none⟩]
  votes := [⟨1, 5, 9, "for"⟩]
  activities := [⟨5, 2⟩]
  dateOptions := [⟨41, 2, 0, none, none⟩, ⟨42, 2, 0, none, none⟩]
  dateResponses := []
  participants := [⟨3, 8, true, false⟩]

/-! ## Generic list lemmas -/

theorem sum_map_sub {α : Type} (l : List α) (f g : α → ℚ) :
    (l.map (fun x => f x - g x)).sum = (l.map f).sum - (l.map g).sum := by
  induction l with
  | nil => simp
  | cons x xs ih => simp only [List.map_cons, List.sum_cons, ih]; ring

theorem abs_sum_map_le {α : Type} (l : List α) (f : α → ℚ) :
    |(l.map f).sum| ≤ (l.map (fun x => |f x|)).sum := by
  induction l with
  | nil => simp
  | cons x xs ih =>
    simp only [List.map_cons, List.sum_cons]
    exact (abs_add _ _).trans (by linarith)

theorem sum_map_le_length_mul {α : Type} (l : List α) (f : α → ℚ) (c : ℚ)
    (h : ∀ x ∈ l, f x ≤ c) : (l.map f).sum ≤ l.length * c := by
  induction l with
  | nil => simp
  | cons x xs ih =>
    simp only [List.map_cons, List.sum_cons, List.length_cons]
    have h1 : f x ≤ c := h x (List.mem_cons_self x xs)
    have h2 : (xs.map f).sum ≤ xs.length * c := ih (fun y hy => h y (List.mem_cons_of_mem x hy))
    push_cast
    linarith

theorem sum_map_nonneg {α : Type} (l : List α) (f : α → ℚ)
    (h : ∀ x ∈ l, 0 ≤ f x) : 0 ≤ (l.map f).sum := by
  induction l with
  | nil => simp
  | cons x xs ih =>
    simp only [List.map_cons, List.sum_cons]
    have h1 : 0 ≤ f x := h x (List.mem_cons_self x xs)
    have h2 : 0 ≤ (xs.map f).sum := ih (fun y hy => h y (List.mem_cons_of_mem x hy))
    linarith

theorem sum_map_pos {α : Type} (l : List α) (f : α → ℚ) (a : α)
    (ha : a ∈ l) (hpos : 0 < f a) (h : ∀ x ∈ l, 0 ≤ f x) : 0 < (l.map f).sum := by
  induction l with
  | nil => cases ha
  | cons x xs ih =>
    simp only [List.map_cons, List.sum_cons]
    rcases List.mem_cons.mp ha with rfl | hmem
    · have h2 : 0 ≤ (xs.map f).sum :=
        sum_map_nonneg xs f (fun y hy => h y (List.mem_cons_of_mem a hy))
      linarith
    · have h1 : 0 ≤ f x := h x (List.mem_cons_self x xs)
      have h2 : 0 < (xs.map f).sum :=
        ih hmem (fun y hy => h y (List.mem_cons_of_mem x hy))
      linarith

theorem nat_sum_map_pos {α : Type} (l : List α) (f : α → ℕ) (a : α)
    (ha : a ∈ l) (hpos : 0 < f a) : 0 < (l.map f).sum := by
  induction l with
  | nil => cases ha
  | cons x xs ih =>
    simp only [List.map_cons, List.sum_cons]
    rcases List.mem_cons.mp ha with rfl | hmem
    · omega
    · have := ih hmem
      omega

theorem nat_exists_pos_of_sum_pos {α : Type} (l : List α) (f : α → ℕ)
    (h : 0 < (l.map f).sum) : ∃ x ∈ l, 0 < f x := by
  induction l with
  | nil => simp at h
  | cons x xs ih =>
    simp only [List.map_cons, List.sum_cons] at h
    by_cases hx : 0 < f x
    · exact ⟨x, List.mem_cons_self x xs, hx⟩
    · have hx0 : f x = 0 := by omega
      obtain ⟨y, hy, hfy⟩ := ih (by omega)
      exact ⟨y, List.mem_cons_of_mem x hy, hfy⟩

theorem nat_sum_map_le_sum_map {α : Type} (l : List α) (f g : α → ℕ)
    (h : ∀ x ∈ l, f x ≤ g x) : (l.map f).sum ≤ (l.map g).sum := by
  induction l with
  | nil => simp
  | cons x xs ih =>
    simp only [List.map_cons, List.sum_cons]
    have h1 := h x (List.mem_cons_self x xs)
    have h2 := ih (fun y hy => h y (List.mem_cons_of_mem x hy))
    omega

theorem length_filter_le_filter {α : Type} (l : List α) (p q : α → Bool)
    (h : ∀ x ∈ l, p x = true → q x = true) :
    (l.filter p).length ≤ (l.filter q).length := by
  induction l with
  | nil => simp
  | cons x xs ih =>
    have ih2 := ih (fun y hy => h y (List.mem_cons_of_mem x hy))
    by_cases hp : p x = true
    · rw [List.filter_cons_of_pos hp, List.filter_cons_of_pos (h x (List.mem_cons_self x xs) hp)]
      simpa using ih2
    · rw [List.filter_cons_of_neg (by simpa using hp)]
      by_cases hq : q x = true
      · rw [List.filter_cons_of_pos hq]
        simp only [List.length_cons]
        omega
      · rw [List.filter_cons_of_neg (by simpa using hq)]
        exact ih2

theorem filter_of_map {α β : Type} (l : List α) (f : α → β) (p : β → Bool) :
    (l.map f).filter p = (l.filter (fun x => p (f x))).map f := by
  induction l with
  | nil => rfl
  | cons x xs ih =>
    simp only [List.map_cons, List.filter_cons, ih]
    by_cases h : p (f x) = true
    · simp [h]
    · simp [h]

theorem sum_map_div {α : Type} (l : List α) (f : α → ℚ) (d : ℚ) :
    (l.map (fun x => f x / d)).sum = (l.map f).sum / d := by
  induction l with
  | nil => simp
  | cons x xs ih => simp only [List.map_cons, List.sum_cons, ih]; ring

/-! ## Sorting lemmas: the stable sorts are permutations -/

theorem insertPctDesc_perm (x : DistEntry) (l : List DistEntry) :
    List.Perm (insertPctDesc x l) (x :: l) := by
  induction l with
  | nil => exact List.Perm.refl _
  | cons y ys ih =>
    rw [insertPctDesc]
    by_cases h : y.percentage > x.percentage
    · rw [if_pos h]
      exact (List.Perm.cons y ih).trans (List.Perm.swap x y ys)
    · rw [if_neg h]

theorem sortPctDesc_perm (l : List DistEntry) : List.Perm (sortPctDesc l) l := by
  induction l with
  | nil => exact List.Perm.refl _
  | cons x xs ih =>
    have hstep : sortPctDesc (x :: xs) = insertPctDesc x (sortPctDesc xs) := rfl
    rw [hstep]
    exact (insertPctDesc_perm x (sortPctDesc xs)).trans (List.Perm.cons x ih)

/-! ## Facts about the aggregation -/

theorem mem_addKey {ks : List String} {c x : String} :
    x ∈ addKey ks c ↔ x ∈ ks ∨ x = c := by
  rw [addKey]
  by_cases h : c ∈ ks
  · rw [if_pos h]
    constructor
    · exact fun hx => Or.inl hx
    · rintro (hx | rfl)
      · exact hx
      · exact h
  · rw [if_neg h]
    simp [List.mem_append]

theorem mem_availKeys {activities : List Activity} {c : String} :
    c ∈ availKeys activities ↔ ∃ a ∈ activities, a.category = c := by
  rw [availKeys]
  suffices h : ∀ (l : List Activity) (init : List String),
      c ∈ l.foldl (fun ks a => addKey ks a.category) init ↔
        c ∈ init ∨ ∃ a ∈ l, a.category = c by
    simpa using h activities []
  intro l
  induction l with
  | nil => intro init; simp
  | cons a as ih =>
    intro init
    rw [List.foldl_cons, ih, mem_addKey]
    constructor
    · rintro ((hi | he) | ⟨b, hb, rfl⟩)
      · exact Or.inl hi
      · exact Or.inr ⟨a, List.mem_cons_self a as, he.symm⟩
      · exact Or.inr ⟨b, List.mem_cons_of_mem a hb, rfl⟩
    · rintro (hi | ⟨b, hb, rfl⟩)
      · exact Or.inl (Or.inl hi)
      · rcases List.mem_cons.mp hb with rfl | hmem
        · exact Or.inl (Or.inr rfl)
        · exact Or.inr ⟨b, hmem, rfl⟩

theorem availCount_pos {activities : List Activity} {c : String}
    (h : c ∈ availKeys activities) : 0 < availCount activities c := by
  obtain ⟨a, ha, hc⟩ := mem_availKeys.mp h
  have hmem : a ∈ activities.filter (fun a => decide (a.category = c)) :=
    List.mem_filter.mpr ⟨ha, by simp [hc]⟩
  exact List.length_pos.mpr (List.ne_nil_of_mem hmem)

theorem totalAvailable_pos {activities : List Activity} {c : String}
    (h : c ∈ availKeys activities) : 0 < totalAvailable activities :=
  nat_sum_map_pos (availKeys activities) (availCount activities) c h (availCount_pos h)

theorem availShare_pos {activities : List Activity} {c : String}
    (h : c ∈ availKeys activities) : 0 < availShare activities c :=
  div_pos (by exact_mod_cast availCount_pos h) (by exact_mod_cast totalAvailable_pos h)

theorem mem_availKeys_of_catCount_pos {activities : List Activity} {m : Member} {c : String}
    (h : 0 < memberCatCount activities m c) : c ∈ availKeys activities := by
  rw [memberCatCount] at h
  obtain ⟨a, ha⟩ := List.exists_mem_of_length_pos h
  have := List.mem_filter.mp ha
  have hp := of_decide_eq_true this.2
  exact hp.1 ▸ hp.2

theorem memberCatCount_le_memberTotal (activities : List Activity) (m : Member) (c : String) :
    memberCatCount activities m c ≤ memberTotal activities m := by
  rw [memberCatCount, memberTotal]
  apply length_filter_le_filter
  intro a _ hpa
  have hp := of_decide_eq_true hpa
  exact decide_eq_true hp.2

theorem favCount_le_totalFavorites (members : List Member) (activities : List Activity)
    (c : String) : favCount members activities c ≤ totalFavorites members activities :=
  nat_sum_map_le_sum_map members _ _
    (fun m _ => memberCatCount_le_memberTotal activities m c)

theorem exists_member_pos {members : List Member} {activities : List Activity} {c : String}
    (h : 0 < favCount members activities c) :
    ∃ m ∈ members, 0 < memberCatCount activities m c :=
  nat_exists_pos_of_sum_pos members _ h

theorem mem_contribMembers_of_catCount_pos {members : List Member}
    {activities : List Activity} {m : Member} {c : String} (hm : m ∈ members)
    (h : 0 < memberCatCount activities m c) : m ∈ contribMembers members activities := by
  have hmt : 0 < memberTotal activities m :=
    lt_of_lt_of_le h (memberCatCount_le_memberTotal activities m c)
  exact List.mem_filter.mpr ⟨hm, by simp [hmt]⟩

theorem contributingUsers_pos {members : List Member} {activities : List Activity} {c : String}
    (h : 0 < favCount members activities c) : 0 < contributingUsers members activities := by
  obtain ⟨m, hm, hpos⟩ := exists_member_pos h
  rw [contributingUsers]
  exact List.length_pos.mpr
    (List.ne_nil_of_mem (mem_contribMembers_of_catCount_pos hm hpos))

theorem memberTotal_pos_of_contrib {members : List Member} {activities : List Activity}
    {m : Member} (hm : m ∈ contribMembers members activities) :
    0 < memberTotal activities m := by
  have := (List.mem_filter.mp hm).2
  simpa using this

theorem memberNormContrib_nonneg (activities : List Activity) (m : Member) (c : String) :
    0 ≤ memberNormContrib activities m c := by
  rw [memberNormContrib]
  split
  · exact le_refl 0
  · exact div_nonneg (div_nonneg (Nat.cast_nonneg _) (Nat.cast_nonneg _))
      (div_nonneg (Nat.cast_nonneg _) (Nat.cast_nonneg _))

theorem normScore_nonneg (members : List Member) (activities : List Activity) (c : String) :
    0 ≤ normScore members activities c :=
  div_nonneg
    (sum_map_nonneg _ _ (fun m _ => memberNormContrib_nonneg activities m c))
    (Nat.cast_nonneg _)

/-- Inside the catalog, the accumulated normalized score factors as
(sum of user shares) · total_available / (availability · contributing). -/
theorem normScore_eq (members : List Member) (activities : List Activity) {c : String}
    (hc : c ∈ availKeys activities) :
    normScore members activities c =
      ((contribMembers members activities).map
        (fun m => (memberCatCount activities m c : ℚ) / (memberTotal activities m : ℚ))).sum *
        (totalAvailable activities : ℚ) /
        ((availCount activities c : ℚ) * (contributingUsers members activities : ℚ)) := by
  have hsh : availShare activities c ≠ 0 := (availShare_pos hc).ne'
  rw [normScore]
  have hmap : (contribMembers members activities).map (fun m => memberNormContrib activities m c)
      = (contribMembers members activities).map
        (fun m => ((memberCatCount activities m c : ℚ) / (memberTotal activities m : ℚ)) *
          ((totalAvailable activities : ℚ) / (availCount activities c : ℚ))) := by
    apply List.map_congr_left
    intro m _
    rw [memberNormContrib, if_neg hsh, availShare, div_div_eq_mul_div, mul_div_assoc]
  rw [hmap, List.sum_map_mul_right, ← mul_div_assoc, div_div]

theorem shareSum_pos {members : List Member} {activities : List Activity} {c : String}
    (hfav : 0 < favCount members activities c) :
    0 < ((contribMembers members activities).map
      (fun m => (memberCatCount activities m c : ℚ) / (memberTotal activities m : ℚ))).sum := by
  obtain ⟨m, hm, hpos⟩ := exists_member_pos hfav
  have hmem := mem_contribMembers_of_catCount_pos hm hpos
  apply sum_map_pos _ _ m hmem
  · exact div_pos (by exact_mod_cast hpos)
      (by exact_mod_cast memberTotal_pos_of_contrib hmem)
  · intro x _
    exact div_nonneg (Nat.cast_nonneg _) (Nat.cast_nonneg _)

theorem normScore_pos {members : List Member} {activities : List Activity} {c : String}
    (hc : c ∈ availKeys activities) (hfav : 0 < favCount members activities c) :
    0 < normScore members activities c := by
  rw [normScore_eq members activities hc]
  apply div_pos
  · exact mul_pos (shareSum_pos hfav) (by exact_mod_cast totalAvailable_pos hc)
  · exact mul_pos (by exact_mod_cast availCount_pos hc)
      (by exact_mod_cast contributingUsers_pos hfav)

theorem mem_displayCategories {members : List Member} {activities : List Activity}
    {c : String} : c ∈ displayCategories members activities ↔
      c ∈ availKeys activities ∧ 0 < favCount members activities c := by
  rw [displayCategories, List.mem_filter]
  simp

theorem scoreSum_pos {members : List Member} {activities : List Activity} {c : String}
    (hc : c ∈ availKeys activities) (hfav : 0 < favCount members activities c) :
    0 < scoreSum members activities := by
  rw [scoreSum]
  exact sum_map_pos _ _ c (mem_displayCategories.mpr ⟨hc, hfav⟩)
    (normScore_pos hc hfav) (fun d _ => normScore_nonneg members activities d)

/-- When some category has a positive raw favorite count, the function
reaches its success branch. -/
theorem calcNormalized_success (members : List Member) (activities : List Activity)
    {c : String} (hc : c ∈ availKeys activities)
    (hfav : 0 < favCount members activities c) :
    calcNormalized members activities =
      (sortPctDesc ((displayCategories members activities).map (ndEntry members activities)),
       sortPctDesc ((displayCategories members activities).map (rawEntry members activities)),
       sortCntDesc ((availKeys activities).map (fun d => ⟨d, availCount activities d⟩)),
       totalFavorites members activities) := by
  have h1 : totalAvailable activities ≠ 0 := (totalAvailable_pos hc).ne'
  have h2 : totalFavorites members activities ≠ 0 :=
    (lt_of_lt_of_le hfav (favCount_le_totalFavorites members activities c)).ne'
  have h3 : contributingUsers members activities ≠ 0 := (contributingUsers_pos hfav).ne'
  have h4 : displayCategories members activities ≠ [] :=
    List.ne_nil_of_mem (mem_displayCategories.mpr ⟨hc, hfav⟩)
  have h5 : ¬ scoreSum members activities ≤ 0 := not_le.mpr (scoreSum_pos hc hfav)
  rw [calcNormalized, if_neg h1, if_neg h2, if_neg h3, if_neg h4, if_neg h5]

theorem round1_sub_le (q : ℚ) : |round1 q - q| ≤ 1 / 20 := by
  have h3 : |10 * q - ((round (10 * q) : ℤ) : ℚ)| ≤ 1 / 2 := abs_sub_round (10 * q)
  have heq : round1 q - q = (((round (10 * q) : ℤ) : ℚ) - 10 * q) / 10 := by
    rw [round1]; ring
  rw [heq, abs_div, abs_of_pos (by norm_num : (0:ℚ) < 10), abs_sub_comm]
  linarith

/-- Membership in the sorted normalized distribution is membership in the
entry list. -/
theorem mem_sortPctDesc {l : List DistEntry} {e : DistEntry} :
    e ∈ sortPctDesc l ↔ e ∈ l :=
  (sortPctDesc_perm l).mem_iff

theorem round1_mono {a b : ℚ} (hab : a ≤ b) : round1 a ≤ round1 b := by
  rw [round1, round1]
  have h : round (10 * a) ≤ round (10 * b) := by
    rw [round_eq, round_eq]
    exact Int.floor_le_floor (by linarith)
  have h10 : (0:ℚ) < 10 := by norm_num
  exact (div_le_div_iff_of_pos_right h10).mpr (by exact_mod_cast h)

/-! ## Evaluation of the one-member, one-activity input (used by witnesses) -/

theorem calcFood_eval : calcNormalized wFoodMembers wFoodActivities =
    ([⟨"food", 100, 1⟩], [⟨"food", 100, 1⟩], [⟨"food", 1⟩], 1) := by
  have hd : displayCategories wFoodMembers wFoodActivities = ["food"] := by decide
  have hs : normScore wFoodMembers wFoodActivities "food" = 1 := by
    simp [normScore, contribMembers, memberNormContrib, availShare, contributingUsers,
      memberTotal, memberCatCount, availKeys, addKey, availCount, totalAvailable,
      wFoodMembers, wFoodActivities]
  have hss : scoreSum wFoodMembers wFoodActivities = 1 := by
    rw [scoreSum, hd]
    simp [hs]
  have hp : round1 (pctExact wFoodMembers wFoodActivities "food") = 100 := by
    rw [pctExact, hs, hss, round1, round_eq]
    norm_num
  have hr : round1 ((favCount wFoodMembers wFoodActivities "food" : ℚ) /
      (totalFavorites wFoodMembers wFoodActivities : ℚ) * 100) = 100 := by
    have hfc : favCount wFoodMembers wFoodActivities "food" = 1 := by decide
    have htf : totalFavorites wFoodMembers wFoodActivities = 1 := by decide
    rw [hfc, htf, round1, round_eq]
    norm_num
  rw [calcNormalized, if_neg (by decide), if_neg (by decide), if_neg (by decide),
    if_neg (by rw [hd]; decide), if_neg (by rw [hss]; norm_num), hd]
  refine Prod.ext ?_ (Prod.ext ?_ (Prod.ext ?_ (by decide)))
  · simp [sortPctDesc, insertPctDesc, ndEntry, hp]
    decide
  · simp [sortPctDesc, insertPctDesc, rawEntry, hr]
    decide
  · decide

theorem calcFood_ne_nil : (calcNormalized wFoodMembers wFoodActivities).1 ≠ [] := by
  rw [calcFood_eval]
  simp

/-! ## C2: the normalized percentages sum to 100 up to rounding -/

/-- C2.  For every input on which the normalization returns a non-empty
normalized distribution, the sum of the (one-decimal-place rounded)
percentages equals 100.0 within the rounding tolerance: the exact
percentages sum to exactly 100, each entry is rounded to one decimal
place with error at most 1/20 = 0.05, so the rounded sum is within
`length / 20` of 100.0. -/
theorem c2_normalized_sum_100 (members : List Member) (activities : List Activity)
    (h : (calcNormalized members activities).1 ≠ []) :
    |((((calcNormalized members activities).1).map DistEntry.percentage).sum) - 100| ≤
      (((calcNormalized members activities).1).length : ℚ) / 20 := by
  by_cases h1 : totalAvailable activities = 0
  · rw [calcNormalized, if_pos h1] at h; simp at h
  by_cases h2 : totalFavorites members activities = 0
  · rw [calcNormalized, if_neg h1, if_pos h2] at h; simp at h
  by_cases h3 : contributingUsers members activities = 0
  · rw [calcNormalized, if_neg h1, if_neg h2, if_pos h3] at h; simp at h
  by_cases h4 : displayCategories members activities = []
  · rw [calcNormalized, if_neg h1, if_neg h2, if_neg h3, if_pos h4] at h; simp at h
  by_cases h5 : scoreSum members activities ≤ 0
  · rw [calcNormalized, if_neg h1, if_neg h2, if_neg h3, if_neg h4, if_pos h5] at h
    simp at h
  have hcalc : (calcNormalized members activities).1 =
      sortPctDesc ((displayCategories members activities).map (ndEntry members activities)) := by
    rw [calcNormalized, if_neg h1, if_neg h2, if_neg h3, if_neg h4, if_neg h5]
  have hSS : scoreSum members activities ≠ 0 := fun hh => h5 (le_of_eq hh)
  have hperm :
      List.Perm (((calcNormalized members activities).1).map DistEntry.percentage)
        (((displayCategories members activities).map
          (ndEntry members activities)).map DistEntry.percentage) := by
    rw [hcalc]
    exact (sortPctDesc_perm _).map _
  have hlen : ((calcNormalized members activities).1).length =
      (displayCategories members activities).length := by
    rw [hcalc, (sortPctDesc_perm _).length_eq, List.length_map]
  rw [hperm.sum_eq, hlen, List.map_map]
  have hcomp :
      (DistEntry.percentage ∘ ndEntry members activities) =
        fun c => round1 (pctExact members activities c) := rfl
  rw [hcomp]
  have hexact : ((displayCategories members activities).map
      (fun c => pctExact members activities c)).sum = 100 := by
    have hmapeq : ((displayCategories members activities).map
        (fun c => pctExact members activities c)) =
        ((displayCategories members activities).map
          (fun c => normScore members activities c * (100 / scoreSum members activities))) := by
      apply List.map_congr_left
      intro c _
      rw [pctExact]
      ring
    rw [hmapeq, List.sum_map_mul_right]
    have hsum : ((displayCategories members activities).map
        (fun c => normScore members activities c)).sum = scoreSum members activities := rfl
    rw [hsum, mul_comm, div_mul_cancel₀ _ hSS]
  have hsub : ((displayCategories members activities).map
        (fun c => round1 (pctExact members activities c))).sum - 100 =
      ((displayCategories members activities).map
        (fun c => round1 (pctExact members activities c) -
          pctExact members activities c)).sum := by
    rw [sum_map_sub, hexact]
  rw [hsub]
  calc |((displayCategories members activities).map
        (fun c => round1 (pctExact members activities c) -
          pctExact members activities c)).sum|
      ≤ ((displayCategories members activities).map
        (fun c => |round1 (pctExact members activities c) -
          pctExact members activities c|)).sum := abs_sum_map_le _ _
    _ ≤ ((displayCategories members activities).length : ℚ) * (1 / 20) :=
        sum_map_le_length_mul _ _ _ (fun c _ => round1_sub_le _)
    _ = ((displayCategories members activities).length : ℚ) / 20 := by ring

/-- C2 witness: a one-member, one-activity input with a non-empty
normalized distribution. -/
theorem c2_normalized_sum_100_witness :
    (calcNormalized wFoodMembers wFoodActivities).1 ≠ [] ∧
    |((((calcNormalized wFoodMembers wFoodActivities).1).map DistEntry.percentage).sum) - 100| ≤
      (((calcNormalized wFoodMembers wFoodActivities).1).length : ℚ) / 20 :=
  ⟨calcFood_ne_nil, c2_normalized_sum_100 wFoodMembers wFoodActivities calcFood_ne_nil⟩

/-! ## C1: inverse-availability weighting -/

/-- C1 (amended).  If additionally every member has the same number of
favorites in the two categories (the spec's claim fails when the equal raw
counts are distributed differently across members), then the rarer
category's exact (pre-rounding) percentage is strictly higher, both
categories appear in the normalized distribution, and the rarer category's
rounded percentage is at least as high (rounding to one decimal place can
collapse a strict gap). -/
theorem c1_normalization_favors_rare_amended
    (members : List Member) (activities : List Activity) (c1 c2 : String)
    (heq : ∀ m ∈ members, memberCatCount activities m c1 = memberCatCount activities m c2)
    (hfav : 0 < favCount members activities c1)
    (hlt : availCount activities c1 < availCount activities c2) :
    pctExact members activities c2 < pctExact members activities c1 ∧
    (∃ e ∈ (calcNormalized members activities).1, e.category = c1) ∧
    (∃ e ∈ (calcNormalized members activities).1, e.category = c2) ∧
    (∀ e1 ∈ (calcNormalized members activities).1, e1.category = c1 →
      ∀ e2 ∈ (calcNormalized members activities).1, e2.category = c2 →
        e2.percentage ≤ e1.percentage) := by
  have hfav2 : favCount members activities c2 = favCount members activities c1 := by
    rw [favCount, favCount]
    exact congrArg List.sum (List.map_congr_left (fun m hm => (heq m hm).symm))
  have hfavc2 : 0 < favCount members activities c2 := hfav2 ▸ hfav
  have hc1 : c1 ∈ availKeys activities := by
    obtain ⟨m, hm, hpos⟩ := exists_member_pos hfav
    exact mem_availKeys_of_catCount_pos hpos
  have hc2 : c2 ∈ availKeys activities := by
    obtain ⟨m, hm, hpos⟩ := exists_member_pos hfavc2
    exact mem_availKeys_of_catCount_pos hpos
  have hSeq : ((contribMembers members activities).map
      (fun m => (memberCatCount activities m c2 : ℚ) / (memberTotal activities m : ℚ))).sum =
      ((contribMembers members activities).map
      (fun m => (memberCatCount activities m c1 : ℚ) / (memberTotal activities m : ℚ))).sum := by
    exact congrArg List.sum (List.map_congr_left
      (fun m hm => by rw [heq m (List.mem_of_mem_filter hm)]))
  have hScore : normScore members activities c2 < normScore members activities c1 := by
    rw [normScore_eq members activities hc1, normScore_eq members activities hc2, hSeq]
    have hnum : 0 < ((contribMembers members activities).map
        (fun m => (memberCatCount activities m c1 : ℚ) / (memberTotal activities m : ℚ))).sum *
        (totalAvailable activities : ℚ) :=
      mul_pos (shareSum_pos hfav) (by exact_mod_cast totalAvailable_pos hc1)
    have hden1 : (0:ℚ) < (availCount activities c1 : ℚ) * (contributingUsers members activities : ℚ) :=
      mul_pos (by exact_mod_cast availCount_pos hc1)
        (by exact_mod_cast contributingUsers_pos hfav)
    have hdenlt : (availCount activities c1 : ℚ) * (contributingUsers members activities : ℚ) <
        (availCount activities c2 : ℚ) * (contributingUsers members activities : ℚ) := by
      apply mul_lt_mul_of_pos_right
      · exact_mod_cast hlt
      · exact_mod_cast contributingUsers_pos hfav
    exact div_lt_div_of_pos_left hnum hden1 hdenlt
  have hSS : 0 < scoreSum members activities := scoreSum_pos hc1 hfav
  have hpct : pctExact members activities c2 < pctExact members activities c1 := by
    rw [pctExact, pctExact]
    apply mul_lt_mul_of_pos_right _ (by norm_num : (0:ℚ) < 100)
    exact (div_lt_div_iff_of_pos_right hSS).mpr hScore
  have hsucc := calcNormalized_success members activities hc1 hfav
  have hnd : (calcNormalized members activities).1 =
      sortPctDesc ((displayCategories members activities).map (ndEntry members activities)) := by
    rw [hsucc]
  have hmem1 : ndEntry members activities c1 ∈ (calcNormalized members activities).1 := by
    rw [hnd]
    exact mem_sortPctDesc.mpr
      (List.mem_map_of_mem _ (mem_displayCategories.mpr ⟨hc1, hfav⟩))
  have hmem2 : ndEntry members activities c2 ∈ (calcNormalized members activities).1 := by
    rw [hnd]
    exact mem_sortPctDesc.mpr
      (List.mem_map_of_mem _ (mem_displayCategories.mpr ⟨hc2, hfavc2⟩))
  refine ⟨hpct, ⟨ndEntry members activities c1, hmem1, rfl⟩,
    ⟨ndEntry members activities c2, hmem2, rfl⟩, ?_⟩
  intro e1 h1 hcat1 e2 h2 hcat2
  rw [hnd] at h1 h2
  obtain ⟨d1, _, rfl⟩ := List.mem_map.mp (mem_sortPctDesc.mp h1)
  obtain ⟨d2, _, rfl⟩ := List.mem_map.mp (mem_sortPctDesc.mp h2)
  have hd1 : d1 = c1 := hcat1
  have hd2 : d2 = c2 := hcat2
  subst hd1
  subst hd2
  exact round1_mono (le_of_lt hpct)

/-- C1 witness: one member with one favorite in each of A (1 catalog
activity) and B (2 catalog activities). -/
theorem c1_normalization_favors_rare_amended_witness :
    (∀ m ∈ wRareMembers, memberCatCount wRareActivities m "A" = memberCatCount wRareActivities m "B") ∧
    0 < favCount wRareMembers wRareActivities "A" ∧
    availCount wRareActivities "A" < availCount wRareActivities "B" ∧
    (pctExact wRareMembers wRareActivities "B" < pctExact wRareMembers wRareActivities "A" ∧
     (∃ e ∈ (calcNormalized wRareMembers wRareActivities).1, e.category = "A") ∧
     (∃ e ∈ (calcNormalized wRareMembers wRareActivities).1, e.category = "B") ∧
     (∀ e1 ∈ (calcNormalized wRareMembers wRareActivities).1, e1.category = "A" →
       ∀ e2 ∈ (calcNormalized wRareMembers wRareActivities).1, e2.category = "B" →
         e2.percentage ≤ e1.percentage)) :=
  ⟨by decide, by decide, by decide,
   c1_normalization_favors_rare_amended wRareMembers wRareActivities "A" "B"
     (by decide) (by decide) (by decide)⟩

/-- Evaluation of the normalized distribution on the counterexample input:
categories A and B have equal raw counts (1 each), availabilities 2 and 3,
and receive 10.3% and 27.6%. -/
theorem cex_nd_eval : (calcNormalized cexMembers cexActivities).1 =
    [⟨"C", 621/10, 3⟩, ⟨"B", 138/5, 1⟩, ⟨"A", 103/10, 1⟩] := by
  have hd : displayCategories cexMembers cexActivities = ["A", "B", "C"] := by decide
  have hsA : normScore cexMembers cexActivities "A" = 3/8 := by
    simp [normScore, contribMembers, memberNormContrib, availShare, contributingUsers,
      memberTotal, memberCatCount, availKeys, addKey, availCount, totalAvailable,
      cexMembers, cexActivities]
    norm_num
  have hsB : normScore cexMembers cexActivities "B" = 1 := by
    simp [normScore, contribMembers, memberNormContrib, availShare, contributingUsers,
      memberTotal, memberCatCount, availKeys, addKey, availCount, totalAvailable,
      cexMembers, cexActivities]
    norm_num
  have hsC : normScore cexMembers cexActivities "C" = 9/4 := by
    simp [normScore, contribMembers, memberNormContrib, availShare, contributingUsers,
      memberTotal, memberCatCount, availKeys, addKey, availCount, totalAvailable,
      cexMembers, cexActivities]
    norm_num
  have hss : scoreSum cexMembers cexActivities = 29/8 := by
    rw [scoreSum, hd]
    simp [hsA, hsB, hsC]
    norm_num
  have hpA : round1 (pctExact cexMembers cexActivities "A") = 103/10 := by
    rw [pctExact, hsA, hss, round1, round_eq]
    norm_num [Int.floor_eq_iff]
  have hpB : round1 (pctExact cexMembers cexActivities "B") = 138/5 := by
    rw [pctExact, hsB, hss, round1, round_eq]
    norm_num [Int.floor_eq_iff]
  have hpC : round1 (pctExact cexMembers cexActivities "C") = 621/10 := by
    rw [pctExact, hsC, hss, round1, round_eq]
    norm_num [Int.floor_eq_iff]
  have hmap : (displayCategories cexMembers cexActivities).map
      (ndEntry cexMembers cexActivities) =
      [⟨"A", 103/10, 1⟩, ⟨"B", 138/5, 1⟩, ⟨"C", 621/10, 3⟩] := by
    rw [hd]
    simp [ndEntry, hpA, hpB, hpC]
    refine ⟨by decide, by decide, by decide⟩
  have hguards : calcNormalized cexMembers cexActivities =
      (sortPctDesc ((displayCategories cexMembers cexActivities).map
          (ndEntry cexMembers cexActivities)),
        sortPctDesc ((displayCategories cexMembers cexActivities).map
          (rawEntry cexMembers cexActivities)),
        sortCntDesc ((availKeys cexActivities).map
          (fun c => ⟨c, availCount cexActivities c⟩)),
        totalFavorites cexMembers cexActivities) := by
    rw [calcNormalized]
    rw [if_neg (by decide), if_neg (by decide), if_neg (by decide), if_neg (by decide),
      if_neg (by rw [hss]; norm_num)]
  rw [hguards, hmap]
  norm_num [sortPctDesc, insertPctDesc]

/-- C1 counterexample: categories A and B have equal raw favorite counts
and A is rarer in the catalog (2 vs 3), yet A's normalized percentage
(10.3) is strictly lower than B's (27.6): one member splits the single A
favorite against three C favorites while the other member's single
favorite is all B. -/
theorem c1_normalization_favors_rare_cex :
    favCount cexMembers cexActivities "A" = favCount cexMembers cexActivities "B" ∧
    availCount cexActivities "A" < availCount cexActivities "B" ∧
    ∃ eA ∈ (calcNormalized cexMembers cexActivities).1, eA.category = "A" ∧
    ∃ eB ∈ (calcNormalized cexMembers cexActivities).1, eB.category = "B" ∧
      eA.percentage < eB.percentage := by
  refine ⟨by decide, by decide, ⟨"A", 103/10, 1⟩, ?_, rfl,
    ⟨"B", 138/5, 1⟩, ?_, rfl, by norm_num⟩
  · rw [cex_nd_eval]; simp
  · rw [cex_nd_eval]; simp

/-! ## C8: empty-data safety -/

/-- C8.  With zero catalog activities, or with no member favorites at all,
the normalization returns empty distributions (and a zero favorite total)
-- and, being a total function, it cannot raise. -/
theorem c8_empty_data_safety (members : List Member) (activities : List Activity) :
    (activities = [] → calcNormalized members activities = ([], [], [], 0)) ∧
    ((∀ m ∈ members, m.favorites = []) → calcNormalized members activities = ([], [], [], 0)) := by
  constructor
  · rintro rfl
    rw [calcNormalized, if_pos (by decide)]
  · intro h
    have htf : totalFavorites members activities = 0 := by
      rw [totalFavorites]
      apply List.sum_eq_zero
      intro x hx
      obtain ⟨m, hm, rfl⟩ := List.mem_map.mp hx
      rw [memberTotal, h m hm]
      rfl
    rw [calcNormalized]
    by_cases hta : totalAvailable activities = 0
    · rw [if_pos hta]
    · rw [if_neg hta, if_pos htf]

/-- C8 witness: an empty catalog, and a non-empty catalog with a
favorite-less member. -/
theorem c8_empty_data_safety_witness :
    calcNormalized wFoodMembers ([] : List Activity) = ([], [], [], 0) ∧
    calcNormalized [⟨[]⟩] wFoodActivities = ([], [], [], 0) :=
  ⟨(c8_empty_data_safety wFoodMembers []).1 rfl,
   (c8_empty_data_safety [⟨[]⟩] wFoodActivities).2 (by decide)⟩


/-! ## Event lifecycle: helper lemmas -/

theorem find?_map_upd {α : Type} (l : List α) (q : α → Prop) [DecidablePred q] (f : α → α)
    (hpres : ∀ x, q x → q (f x)) :
    (l.map (fun x => if q x then f x else x)).find? (fun x => decide (q x)) =
      (l.find? (fun x => decide (q x))).map f := by
  induction l with
  | nil => rfl
  | cons x xs ih =>
    by_cases hq : q x
    · rw [List.map_cons,
        if_pos hq,
        List.find?_cons_of_pos (p := fun y => decide (q y)) _
          (decide_eq_true (hpres x hq)),
        List.find?_cons_of_pos (p := fun y => decide (q y)) _ (decide_eq_true hq)]
      rfl
    · rw [List.map_cons, if_neg hq,
        List.find?_cons_of_neg (p := fun y => decide (q y)) _ (by simpa using hq),
        List.find?_cons_of_neg (p := fun y => decide (q y)) _ (by simpa using hq), ih]

theorem findEvent_id {db : DB} {eid : ℕ} {e : EventRow}
    (h : findEvent db eid = some e) : e.id = eid := by
  have h' : db.events.find? (fun ev => decide (ev.id = eid)) = some e := h
  have hk := List.find?_some h'
  exact of_decide_eq_true hk

theorem findEvent_congr {db db' : DB} (hev : db'.events = db.events) (eid : ℕ) :
    findEvent db' eid = findEvent db eid := by
  rw [findEvent, findEvent, hev]

/-- `ensure_user_in_room` only (possibly) appends a row to `room_member`. -/
theorem ensure_eq (db : DB) (e : EventRow) (uid : ℕ) :
    ∃ rm, ensureUserInRoom db e uid = { db with roomMembers := rm } := by
  cases h : db.rooms.find? (fun r => decide (r.id = e.roomId)) with
  | none =>
    refine ⟨db.roomMembers, ?_⟩
    simp only [ensureUserInRoom, h]
  | some room =>
    by_cases h1 : room.createdBy = uid
    · refine ⟨db.roomMembers, ?_⟩
      simp only [ensureUserInRoom, h, if_pos h1]
    · by_cases h2 : db.roomMembers.any
          (fun m => decide (m.roomId = e.roomId ∧ m.userId = uid)) = true
      · refine ⟨db.roomMembers, ?_⟩
        simp only [ensureUserInRoom, h, if_neg h1, if_pos h2]
      · refine ⟨db.roomMembers ++ [⟨e.roomId, uid⟩], ?_⟩
        simp only [ensureUserInRoom, h, if_neg h1, if_neg h2]

theorem findEvent_updateEventRow (db : DB) (i : ℕ) (f : EventRow → EventRow)
    (hf : ∀ ev, (f ev).id = ev.id) :
    findEvent (updateEventRow db i f) i = (findEvent db i).map f := by
  rw [findEvent, updateEventRow, findEvent]
  exact find?_map_upd db.events (fun ev => ev.id = i) f
    (fun ev hev => by show (f ev).id = i; rw [hf]; exact hev)

/-! ## C5: phase gating -/

/-- C5.  When the event is not in the proposal phase, exclude-activity,
include-activity and remove-proposed-activity (called by the event's
creator, who passes the role check that precedes the phase check) fail
with bad-request; when the event is not in the scheduling phase,
create-date-option and respond-to-date fail with bad-request.  An
`Except.error` result carries no state, so the event is unchanged (the
transaction is rolled back). -/
theorem c5_phase_gating (db : DB) (uid eid aid doId newId date : ℕ)
    (startTime endTime : Option String) (resp : String) (ip : Bool)
    (contribution : Option ℚ) (note : Option String) (e : EventRow)
    (he : findEvent db eid = some e) :
    (e.createdBy = uid → e.phase ≠ "proposal" →
      excludeActivity db uid eid aid = .error .badRequest ∧
      includeActivity db uid eid aid = .error .badRequest ∧
      removeProposedActivity db uid eid aid = .error .badRequest) ∧
    (e.phase ≠ "scheduling" →
      createDateOption db uid eid newId date startTime endTime = .error .badRequest ∧
      respondToDate db uid eid doId resp ip contribution note = .error .badRequest) := by
  constructor
  · intro hcr hph
    refine ⟨?_, ?_, ?_⟩
    · simp only [excludeActivity, he]
      rw [if_neg (fun h => h hcr), if_pos hph]
    · simp only [includeActivity, he]
      rw [if_neg (fun h => h hcr), if_pos hph]
    · simp only [removeProposedActivity, he]
      rw [if_neg (fun h => h hcr), if_pos hph]
  · intro hph
    constructor
    · simp only [createDateOption, he]
      rw [if_pos hph]
    · simp only [respondToDate, he]
      rw [if_pos hph]

/-- C5 witness: an event in the voting phase, called by its creator. -/
theorem c5_phase_gating_witness :
    findEvent wDB 1 = some ⟨1, 100, 7, "voting", [5], [], none, none⟩ ∧
    ((⟨1, 100, 7, "voting", [5], [], none, none⟩ : EventRow).createdBy = 7 →
      (⟨1, 100, 7, "voting", [5], [], none, none⟩ : EventRow).phase ≠ "proposal" →
      excludeActivity wDB 7 1 5 = .error .badRequest ∧
      includeActivity wDB 7 1 5 = .error .badRequest ∧
      removeProposedActivity wDB 7 1 5 = .error .badRequest) ∧
    ((⟨1, 100, 7, "voting", [5], [], none, none⟩ : EventRow).phase ≠ "scheduling" →
      createDateOption wDB 7 1 77 0 none none = .error .badRequest ∧
      respondToDate wDB 7 1 41 "yes" true none none = .error .badRequest) :=
  ⟨by decide,
   (c5_phase_gating wDB 7 1 5 41 77 0 none none "yes" true none none
     ⟨1, 100, 7, "voting", [5], [], none, none⟩ (by decide)).1,
   (c5_phase_gating wDB 7 1 5 41 77 0 none none "yes" true none none
     ⟨1, 100, 7, "voting", [5], [], none, none⟩ (by decide)).2⟩

/-! ## C6: select-activity -/

theorem isEventOrganizer_iff {db : DB} {e : EventRow} {uid : ℕ} :
    isEventOrganizer db e uid = true ↔
      e.createdBy = uid ∨ ∃ p ∈ db.participants,
        p.eventId = e.id ∧ p.userId = uid ∧ p.isOrganizer = true := by
  rw [isEventOrganizer, Bool.or_eq_true, decide_eq_true_eq]
  constructor
  · rintro (h | h)
    · exact Or.inl h
    · right
      obtain ⟨q, hq⟩ := Option.isSome_iff_exists.mp h
      refine ⟨q, List.mem_of_find?_eq_some hq, ?_⟩
      have hk := List.find?_some
        (p := fun r : ParticipantRow =>
          decide (r.eventId = e.id ∧ r.userId = uid ∧ r.isOrganizer = true)) hq
      exact of_decide_eq_true hk
  · rintro (h | ⟨q, hq, hprop⟩)
    · exact Or.inl h
    · right
      rw [Option.isSome_iff_ne_none]
      intro hnone
      exact (List.find?_eq_none.mp hnone q hq) (decide_eq_true hprop)

/-- C6.  An event organizer (the creator, or a participant flagged
`is_organizer`) calling select-activity sets `chosen_activity_id` and
forces the phase to scheduling; any other caller gets a forbidden error
(and, the result being an error, the event is unchanged). -/
theorem c6_select_activity (db : DB) (uid eid aid : ℕ) (e : EventRow)
    (he : findEvent db eid = some e) :
    ((e.createdBy = uid ∨ ∃ p ∈ db.participants,
        p.eventId = e.id ∧ p.userId = uid ∧ p.isOrganizer = true) →
      ∃ db' e', selectActivity db uid eid aid = .ok db' ∧
        findEvent db' eid = some e' ∧
        e'.chosenActivityId = some aid ∧ e'.phase = "scheduling") ∧
    ((e.createdBy ≠ uid ∧ ∀ p ∈ db.participants,
        ¬(p.eventId = e.id ∧ p.userId = uid ∧ p.isOrganizer = true)) →
      selectActivity db uid eid aid = .error .forbidden) := by
  obtain ⟨rm, hens⟩ := ensure_eq db e uid
  have hid : e.id = eid := findEvent_id he
  have hpart : (ensureUserInRoom db e uid).participants = db.participants := by
    rw [hens]
  have hev1 : (ensureUserInRoom db e uid).events = db.events := by rw [hens]
  constructor
  · intro h
    have horg : isEventOrganizer (ensureUserInRoom db e uid) e uid = true := by
      rw [isEventOrganizer_iff, hpart]
      exact h
    have he' : findEvent db e.id = some e := by rw [hid]; exact he
    have hfind : findEvent (updateEventRow (ensureUserInRoom db e uid) e.id
        (fun ev => { ev with chosenActivityId := some aid, phase := "scheduling" })) eid =
        some { e with chosenActivityId := some aid, phase := "scheduling" } := by
      rw [← hid]
      rw [findEvent_updateEventRow _ e.id
        (fun ev => { ev with chosenActivityId := some aid, phase := "scheduling" })
        (fun ev => rfl)]
      rw [findEvent_congr hev1, he']
      rfl
    refine ⟨_, _, ?_, hfind, rfl, rfl⟩
    simp only [selectActivity, he]
    rw [if_pos horg]
  · intro hno
    have horg : ¬ isEventOrganizer (ensureUserInRoom db e uid) e uid = true := by
      rw [isEventOrganizer_iff, hpart]
      rintro (h | ⟨p, hp, hprop⟩)
      · exact hno.1 h
      · exact hno.2 p hp hprop
    simp only [selectActivity, he]
    rw [if_neg horg]

/-- C6 witness: the creator selects an activity on a proposal-phase event;
a non-creator, non-organizer caller is refused. -/
theorem c6_select_activity_witness :
    findEvent wDB 3 = some ⟨3, 100, 7, "proposal", [], [], none, none⟩ ∧
    ((⟨3, 100, 7, "proposal", [], [], none, none⟩ : EventRow).createdBy = 7 ∨
      ∃ p ∈ wDB.participants, p.eventId = 3 ∧ p.userId = 7 ∧ p.isOrganizer = true) ∧
    (∃ db' e', selectActivity wDB 7 3 5 = .ok db' ∧ findEvent db' 3 = some e' ∧
      e'.chosenActivityId = some 5 ∧ e'.phase = "scheduling") ∧
    selectActivity wDB 9 2 5 = .error .forbidden := by
  refine ⟨by decide, Or.inl (by decide), ?_, ?_⟩
  · exact (c6_select_activity wDB 7 3 5 ⟨3, 100, 7, "proposal", [], [], none, none⟩
      (by decide)).1 (Or.inl (by decide))
  · exact (c6_select_activity wDB 9 2 5 ⟨2, 100, 7, "scheduling", [], [], none, none⟩
      (by decide)).2 ⟨by decide, by decide⟩

/-! ## C7: date option limit -/

/-- C7.  In the scheduling phase (and with a well-formed time pair, since
the handler also rejects an `end_time` without a `start_time`), creating a
date option fails with bad-request when the event already holds 10 or more
date options — creating nothing, since the error carries no state — and
succeeds when it holds at most 9, afterwards holding one more. -/
theorem c7_date_option_limit (db : DB) (uid eid newId date : ℕ)
    (startTime endTime : Option String) (e : EventRow)
    (he : findEvent db eid = some e) (hph : e.phase = "scheduling")
    (ht : (pyStrTruthy endTime && !pyStrTruthy startTime) = false) :
    (10 ≤ (db.dateOptions.filter (fun d => decide (d.eventId = e.id))).length →
      createDateOption db uid eid newId date startTime endTime = .error .badRequest) ∧
    ((db.dateOptions.filter (fun d => decide (d.eventId = e.id))).length ≤ 9 →
      ∃ db', createDateOption db uid eid newId date startTime endTime = .ok db' ∧
        (db'.dateOptions.filter (fun d => decide (d.eventId = e.id))).length =
          (db.dateOptions.filter (fun d => decide (d.eventId = e.id))).length + 1) := by
  obtain ⟨rm, hens⟩ := ensure_eq db e uid
  have hdo : (ensureUserInRoom db e uid).dateOptions = db.dateOptions := by rw [hens]
  constructor
  · intro hcnt
    simp only [createDateOption, he]
    rw [if_neg (fun h => h hph), hdo, if_pos hcnt]
  · intro hcnt
    refine Exists.intro { ensureUserInRoom db e uid with
      dateOptions := (ensureUserInRoom db e uid).dateOptions ++
        [(⟨newId, e.id, date, startTime, endTime⟩ : DateOptionRow)] } ⟨?_, ?_⟩
    · simp only [createDateOption, he]
      rw [if_neg (fun h => h hph)]
      rw [if_neg (show ¬ 10 ≤ ((ensureUserInRoom db e uid).dateOptions.filter
          (fun d => decide (d.eventId = e.id))).length by rw [hdo]; omega)]
      rw [ht]
      simp
    · show ((((ensureUserInRoom db e uid).dateOptions ++
          [(⟨newId, e.id, date, startTime, endTime⟩ : DateOptionRow)]).filter
          (fun d => decide (d.eventId = e.id))).length) = _
      rw [hdo, List.filter_append, List.length_append]
      have hnew : ([(⟨newId, e.id, date, startTime, endTime⟩ : DateOptionRow)].filter
          (fun d => decide (d.eventId = e.id))).length = 1 := by simp
      rw [hnew]

/-- C7 witness: an event in the scheduling phase holding 2 date options;
creating a third succeeds. -/
theorem c7_date_option_limit_witness :
    findEvent wDB 2 = some ⟨2, 100, 7, "scheduling", [], [], none, none⟩ ∧
    (⟨2, 100, 7, "scheduling", [], [], none, none⟩ : EventRow).phase = "scheduling" ∧
    (pyStrTruthy none && !pyStrTruthy none) = false ∧
    ((wDB.dateOptions.filter (fun d => decide (d.eventId = 2))).length ≤ 9 →
      ∃ db', createDateOption wDB 9 2 77 0 none none = .ok db' ∧
        (db'.dateOptions.filter (fun d => decide (d.eventId = 2))).length =
          (wDB.dateOptions.filter (fun d => decide (d.eventId = 2))).length + 1) :=
  ⟨by decide, by decide, by decide,
   (c7_date_option_limit wDB 9 2 77 0 none none
     ⟨2, 100, 7, "scheduling", [], [], none, none⟩ (by decide) (by decide) (by decide)).2⟩


/-! ## Vote counter machinery (C3, C10) -/

theorem upsertVote_mem_self (votes : List VoteRow) (eid aid uid : ℕ) (v : String) :
    (⟨eid, aid, uid, v⟩ : VoteRow) ∈ upsertVote votes eid aid uid v := by
  rw [upsertVote]
  cases h : votes.find? (voteKey eid aid uid) with
  | none => exact List.mem_append_right _ (List.mem_singleton_self _)
  | some r =>
    have hr : r ∈ votes := List.mem_of_find?_eq_some h
    have hk : voteKey eid aid uid r = true := List.find?_some h
    have hk' : r.eventId = eid ∧ r.activityId = aid ∧ r.userId = uid := by
      rw [voteKey] at hk
      exact of_decide_eq_true hk
    refine List.mem_map.mpr ⟨r, hr, ?_⟩
    cases r with
    | mk re ra ru rv =>
      obtain ⟨hr1, hr2, hr3⟩ := hk'
      simp only at hr1 hr2 hr3
      rw [if_pos hk]
      simp [hr1, hr2, hr3]

theorem upsertVote_mem_of_ne (votes : List VoteRow) (eid aid uid : ℕ) (v : String)
    (r : VoteRow) (hr : r ∈ votes) (hne : r.eventId ≠ eid) :
    r ∈ upsertVote votes eid aid uid v := by
  rw [upsertVote]
  cases h : votes.find? (voteKey eid aid uid) with
  | none => exact List.mem_append_left _ hr
  | some r0 =>
    refine List.mem_map.mpr ⟨r, hr, ?_⟩
    have hk : voteKey eid aid uid r = false := by
      rw [voteKey]
      simp only [decide_eq_false_iff_not]
      rintro ⟨hk1, -, -⟩
      exact hne hk1
    rw [if_neg (by rw [hk]; exact Bool.false_ne_true)]

theorem otherForCount_ne_zero (votes : List VoteRow) (eid aid uid : ℕ) (r : VoteRow)
    (hr : r ∈ votes) (h1 : r.userId = uid) (h2 : r.activityId = aid)
    (h3 : r.vote = "for") (h4 : r.eventId ≠ eid) :
    otherForCount votes eid aid uid ≠ 0 := by
  rw [otherForCount]
  have hmem : r ∈ votes.filter (fun x =>
      decide (x.userId = uid ∧ x.activityId = aid ∧ x.vote = "for" ∧ x.eventId ≠ eid)) :=
    List.mem_filter.mpr ⟨hr, by simp [h1, h2, h3, h4]⟩
  exact (List.length_pos.mpr (List.ne_nil_of_mem hmem)).ne'

theorem voteCounterStep_votes (db : DB) (eid aid uid : ℕ) (oldF newF : Bool) :
    (voteCounterStep db eid aid uid oldF newF).votes = db.votes := by
  simp only [voteCounterStep]
  split
  · split <;> rfl
  · rfl

theorem voteCounterStep_events (db : DB) (eid aid uid : ℕ) (oldF newF : Bool) :
    (voteCounterStep db eid aid uid oldF newF).events = db.events := by
  simp only [voteCounterStep]
  split
  · split <;> rfl
  · rfl

theorem voteCounterStep_activities_cases (db : DB) (eid aid uid : ℕ) (oldF newF : Bool) :
    (voteCounterStep db eid aid uid oldF newF).activities = db.activities ∨
    ∃ inc, (voteCounterStep db eid aid uid oldF newF).activities =
      bumpUpvotes db.activities aid inc := by
  simp only [voteCounterStep]
  split
  · split
    · right
      exact ⟨_, rfl⟩
    · left
      rfl
  · left
    rfl

theorem voteCounterStep_activities_of_other (db : DB) (eid aid uid : ℕ) (oldF newF : Bool)
    (h : ∃ r ∈ db.votes, r.userId = uid ∧ r.activityId = aid ∧
      r.vote = "for" ∧ r.eventId ≠ eid) :
    (voteCounterStep db eid aid uid oldF newF).activities = db.activities := by
  obtain ⟨r, hr, h1, h2, h3, h4⟩ := h
  have hoc : otherForCount db.votes eid aid uid ≠ 0 :=
    otherForCount_ne_zero db.votes eid aid uid r hr h1 h2 h3 h4
  have hdec : decide (otherForCount db.votes eid aid uid = 0) = false := by
    simp [hoc]
  simp only [voteCounterStep]
  split
  · simp only [hdec, Bool.and_false, Bool.or_self]
    rw [if_neg Bool.false_ne_true]
  · rfl

theorem voteParticipantStep_eq (db : DB) (eid uid : ℕ) :
    ∃ ps, voteParticipantStep db eid uid = { db with participants := ps } := by
  cases h : db.participants.find? (fun p => decide (p.eventId = eid ∧ p.userId = uid)) with
  | some p =>
    refine ⟨db.participants.map (fun q =>
      if q.eventId = eid ∧ q.userId = uid then { q with hasVoted := true } else q), ?_⟩
    simp only [voteParticipantStep, h]
  | none =>
    refine ⟨db.participants ++ [⟨eid, uid, false, true⟩], ?_⟩
    simp only [voteParticipantStep, h]

theorem applyVote_decomp (db : DB) (e : EventRow) (uid aid : ℕ) (v : String) :
    ∃ rm oldF, applyVote db e uid aid v =
      voteParticipantStep
        (voteCounterStep
          { db with roomMembers := rm, votes := upsertVote db.votes e.id aid uid v }
          e.id aid uid oldF (decide (v = "for")))
        e.id uid := by
  obtain ⟨rm, hens⟩ := ensure_eq db e uid
  refine ⟨rm, (match db.votes.find? (voteKey e.id aid uid) with
    | some r => decide (r.vote = "for")
    | none => false), ?_⟩
  simp only [applyVote, hens]

theorem applyVote_events (db : DB) (e : EventRow) (uid aid : ℕ) (v : String) :
    (applyVote db e uid aid v).events = db.events := by
  obtain ⟨rm, oldF, hdec⟩ := applyVote_decomp db e uid aid v
  obtain ⟨ps, hps⟩ := voteParticipantStep_eq
    (voteCounterStep { db with roomMembers := rm, votes := upsertVote db.votes e.id aid uid v }
      e.id aid uid oldF (decide (v = "for"))) e.id uid
  rw [hdec, hps]
  show (voteCounterStep { db with roomMembers := rm, votes := upsertVote db.votes e.id aid uid v } e.id aid uid oldF (decide (v = "for"))).events = db.events
  rw [voteCounterStep_events]

theorem applyVote_activities_of_other (db : DB) (e : EventRow) (uid aid : ℕ) (v : String)
    (h : ∃ r ∈ db.votes, r.userId = uid ∧ r.activityId = aid ∧
      r.vote = "for" ∧ r.eventId ≠ e.id) :
    (applyVote db e uid aid v).activities = db.activities := by
  obtain ⟨r, hr, h1, h2, h3, h4⟩ := h
  obtain ⟨rm, oldF, hdec⟩ := applyVote_decomp db e uid aid v
  obtain ⟨ps, hps⟩ := voteParticipantStep_eq
    (voteCounterStep { db with roomMembers := rm, votes := upsertVote db.votes e.id aid uid v }
      e.id aid uid oldF (decide (v = "for"))) e.id uid
  rw [hdec, hps]
  show (voteCounterStep { db with roomMembers := rm, votes := upsertVote db.votes e.id aid uid v } e.id aid uid oldF (decide (v = "for"))).activities = db.activities
  have hr' : r ∈ upsertVote db.votes e.id aid uid v :=
    upsertVote_mem_of_ne db.votes e.id aid uid v r hr h4
  rw [voteCounterStep_activities_of_other _ _ _ _ _ _ ⟨r, hr', h1, h2, h3, h4⟩]

theorem applyVote_votes_mem (db : DB) (e : EventRow) (uid aid : ℕ) (v : String) :
    (⟨e.id, aid, uid, v⟩ : VoteRow) ∈ (applyVote db e uid aid v).votes := by
  obtain ⟨rm, oldF, hdec⟩ := applyVote_decomp db e uid aid v
  obtain ⟨ps, hps⟩ := voteParticipantStep_eq
    (voteCounterStep { db with roomMembers := rm, votes := upsertVote db.votes e.id aid uid v }
      e.id aid uid oldF (decide (v = "for"))) e.id uid
  rw [hdec, hps]
  show (⟨e.id, aid, uid, v⟩ : VoteRow) ∈ (voteCounterStep { db with roomMembers := rm, votes := upsertVote db.votes e.id aid uid v } e.id aid uid oldF (decide (v = "for"))).votes
  rw [voteCounterStep_votes]
  exact upsertVote_mem_self db.votes e.id aid uid v

theorem applyVote_activities_cases (db : DB) (e : EventRow) (uid aid : ℕ) (v : String) :
    (applyVote db e uid aid v).activities = db.activities ∨
    ∃ inc, (applyVote db e uid aid v).activities = bumpUpvotes db.activities aid inc := by
  obtain ⟨rm, oldF, hdec⟩ := applyVote_decomp db e uid aid v
  obtain ⟨ps, hps⟩ := voteParticipantStep_eq
    (voteCounterStep { db with roomMembers := rm, votes := upsertVote db.votes e.id aid uid v }
      e.id aid uid oldF (decide (v = "for"))) e.id uid
  rw [hdec, hps]
  rcases voteCounterStep_activities_cases
    { db with roomMembers := rm, votes := upsertVote db.votes e.id aid uid v }
    e.id aid uid oldF (decide (v = "for")) with hc | ⟨inc, hc⟩
  · left
    show (voteCounterStep { db with roomMembers := rm, votes := upsertVote db.votes e.id aid uid v } e.id aid uid oldF (decide (v = "for"))).activities = db.activities
    rw [hc]
  · right
    refine ⟨inc, ?_⟩
    show (voteCounterStep { db with roomMembers := rm, votes := upsertVote db.votes e.id aid uid v } e.id aid uid oldF (decide (v = "for"))).activities = bumpUpvotes db.activities aid inc
    rw [hc]

theorem actUpvotes_bump (acts : List ActivityRow) (aid : ℕ) (inc : Bool) (n : ℤ)
    (hn : actUpvotes acts aid = some n) (hpos : 0 ≤ n) :
    ∃ n', actUpvotes (bumpUpvotes acts aid inc) aid = some n' ∧ 0 ≤ n' := by
  rw [actUpvotes] at hn
  cases h : acts.find? (fun a => decide (a.id = aid)) with
  | none =>
    rw [h] at hn
    cases hn
  | some a0 =>
    rw [h] at hn
    simp only [Option.map_some', Option.some.injEq] at hn
    rw [bumpUpvotes, h, actUpvotes]
    rw [find?_map_upd acts (fun a => a.id = aid)
      (fun a => { a with totalUpvotes :=
        if inc then a.totalUpvotes + 1 else max 0 (a.totalUpvotes - 1) })
      (fun a ha => ha)]
    rw [h]
    refine ⟨_, rfl, ?_⟩
    show (0:ℤ) ≤ if inc then a0.totalUpvotes + 1 else max 0 (a0.totalUpvotes - 1)
    have hrw : 0 ≤ a0.totalUpvotes := by rw [hn]; exact hpos
    split
    · omega
    · exact le_max_left 0 _

/-! ## C3: cross-event upvote deduplication -/

/-- C3.  If the user already holds a "for" vote on activity A in event E1,
then casting a "for" vote on A in the distinct event E2 leaves A's
`total_upvotes` unchanged (the handler counts the user's other-event "for"
votes and skips the increment), and afterwards changing the E1 vote away
from "for" — while the E2 "for" vote remains — also leaves the counter
unchanged (the decrement is skipped for the same reason). -/
theorem c3_upvote_cross_event_dedup (db : DB) (u E1 E2 A : ℕ) (v : String)
    (e1 e2 : EventRow)
    (h1 : (⟨E1, A, u, "for"⟩ : VoteRow) ∈ db.votes)
    (hne : E1 ≠ E2)
    (hE1 : findEvent db E1 = some e1)
    (hE2 : findEvent db E2 = some e2)
    (_hv : v ≠ "for") :
    ∃ db', voteOnActivity db u E2 A "for" = .ok db' ∧
      actUpvotes db'.activities A = actUpvotes db.activities A ∧
      ∃ db'', voteOnActivity db' u E1 A v = .ok db'' ∧
        actUpvotes db''.activities A = actUpvotes db'.activities A := by
  have hid2 : e2.id = E2 := findEvent_id hE2
  have hid1 : e1.id = E1 := findEvent_id hE1
  refine ⟨applyVote db e2 u A "for", ?_, ?_, ?_⟩
  · simp only [voteOnActivity, hE2]
  · rw [applyVote_activities_of_other db e2 u A "for"
      ⟨⟨E1, A, u, "for"⟩, h1, rfl, rfl, rfl, by rw [hid2]; exact hne⟩]
  · have hev : (applyVote db e2 u A "for").events = db.events :=
      applyVote_events db e2 u A "for"
    have hE1' : findEvent (applyVote db e2 u A "for") E1 = some e1 := by
      rw [findEvent_congr hev, hE1]
    refine ⟨applyVote (applyVote db e2 u A "for") e1 u A v, ?_, ?_⟩
    · simp only [voteOnActivity, hE1']
    · rw [applyVote_activities_of_other (applyVote db e2 u A "for") e1 u A v
        ⟨⟨e2.id, A, u, "for"⟩, applyVote_votes_mem db e2 u A "for", rfl, rfl, rfl,
          show e2.id ≠ e1.id by rw [hid1, hid2]; exact hne.symm⟩]

/-- C3 witness: user 9 holds "for" on activity 5 in event 1 and casts
"for" in event 3, then changes the event-1 vote to "against". -/
theorem c3_upvote_cross_event_dedup_witness :
    ((⟨1, 5, 9, "for"⟩ : VoteRow) ∈ wDB.votes) ∧ (1 : ℕ) ≠ 3 ∧
    findEvent wDB 1 = some ⟨1, 100, 7, "voting", [5], [], none, none⟩ ∧
    findEvent wDB 3 = some ⟨3, 100, 7, "proposal", [], [], none, none⟩ ∧
    ("against" : String) ≠ "for" ∧
    (∃ db', voteOnActivity wDB 9 3 5 "for" = .ok db' ∧
      actUpvotes db'.activities 5 = actUpvotes wDB.activities 5 ∧
      ∃ db'', voteOnActivity db' 9 1 5 "against" = .ok db'' ∧
        actUpvotes db''.activities 5 = actUpvotes db'.activities 5) :=
  ⟨by decide, by decide, by decide, by decide, by decide,
   c3_upvote_cross_event_dedup wDB 9 1 3 5 "against"
     ⟨1, 100, 7, "voting", [5], [], none, none⟩
     ⟨3, 100, 7, "proposal", [], [], none, none⟩
     (by decide) (by decide) (by decide) (by decide) (by decide)⟩

/-! ## C10: the upvote counter never goes negative -/

/-- C10.  Vote operations preserve the lower bound 0 on an activity's
`total_upvotes`: an increment keeps it non-negative and the decrement is
clamped at 0 (`max(0, total_upvotes - 1)`). -/
theorem c10_upvotes_lower_bound (db : DB) (uid eid aid : ℕ) (v : String) (n : ℤ)
    (hn : actUpvotes db.activities aid = some n) (hpos : 0 ≤ n) :
    ∀ db', voteOnActivity db uid eid aid v = .ok db' →
      ∃ n', actUpvotes db'.activities aid = some n' ∧ 0 ≤ n' := by
  intro db' hok
  cases he : findEvent db eid with
  | none =>
    rw [voteOnActivity] at hok
    rw [he] at hok
    cases hok
  | some e =>
    rw [voteOnActivity] at hok
    rw [he] at hok
    simp only [Except.ok.injEq] at hok
    subst hok
    rcases applyVote_activities_cases db e uid aid v with hc | ⟨inc, hc⟩
    · rw [hc]
      exact ⟨n, hn, hpos⟩
    · rw [hc]
      exact actUpvotes_bump db.activities aid inc n hn hpos

/-- C10 witness: activity 5 starts at 2 upvotes; any vote call keeps the
counter non-negative. -/
theorem c10_upvotes_lower_bound_witness :
    actUpvotes wDB.activities 5 = some 2 ∧ (0:ℤ) ≤ 2 ∧
    (∀ db', voteOnActivity wDB 9 1 5 "against" = .ok db' →
      ∃ n', actUpvotes db'.activities 5 = some n' ∧ 0 ≤ n') :=
  ⟨by decide, by decide,
   c10_upvotes_lower_bound wDB 9 1 5 "against" 2 (by decide) (by decide)⟩


/-! ## C9: recommendation endpoint failure handling -/

/-- C9.  The external AI call is consulted exactly once (the result depends
only on the first oracle value: no retry).  On an exception: if the locally
computed total favorite count is positive, the endpoint returns the
synthetic fallback built only from local data (with the locally computed
normalized distribution and member count); if it is zero, the endpoint
fails with a 500 error carrying the upstream error message. -/
theorem c9_ai_failure_fallback (members : List Member) (activities : List Activity)
    (aiCall aiCall2 : ℕ → Except String AiRes) (msg : String)
    (hagree : aiCall 0 = aiCall2 0) (herr : aiCall 0 = .error msg) :
    getTeamRecommendations members activities none aiCall =
      getTeamRecommendations members activities none aiCall2 ∧
    (0 < (calcNormalized members activities).2.2.2 →
      getTeamRecommendations members activities none aiCall =
        .ok { (fallbackAiRes members.length) with
              categoryDistribution := (calcNormalized members activities).1
              memberCount := members.length }) ∧
    ((calcNormalized members activities).2.2.2 = 0 →
      getTeamRecommendations members activities none aiCall =
        .error (500, "AI-Analyse fehlgeschlagen: " ++ msg)) := by
  refine ⟨?_, ?_, ?_⟩
  · simp only [getTeamRecommendations]
    rw [hagree]
  · intro htf
    simp only [getTeamRecommendations, herr]
    rw [if_pos htf]
  · intro htf
    simp only [getTeamRecommendations, herr]
    rw [if_neg (by rw [htf]; exact lt_irrefl 0)]

/-- C9 witness: with one favorite present the failing AI call degrades to
the synthetic fallback; with no data at all it surfaces a 500 error. -/
theorem c9_ai_failure_fallback_witness :
    wFailCall 0 = Except.error "kaputt" ∧
    0 < (calcNormalized wFoodMembers wFoodActivities).2.2.2 ∧
    getTeamRecommendations wFoodMembers wFoodActivities none wFailCall =
      .ok { (fallbackAiRes wFoodMembers.length) with
            categoryDistribution := (calcNormalized wFoodMembers wFoodActivities).1
            memberCount := wFoodMembers.length } ∧
    (calcNormalized ([] : List Member) ([] : List Activity)).2.2.2 = 0 ∧
    getTeamRecommendations [] [] none wFailCall =
      .error (500, "AI-Analyse fehlgeschlagen: " ++ "kaputt") :=
  ⟨rfl,
   by rw [calcFood_eval]; decide,
   (c9_ai_failure_fallback wFoodMembers wFoodActivities wFailCall wFailCall "kaputt"
     rfl rfl).2.1 (by rw [calcFood_eval]; decide),
   by decide,
   (c9_ai_failure_fallback [] [] wFailCall wFailCall "kaputt" rfl rfl).2.2 (by decide)⟩

/-! ## C4: priority date responses are exclusive -/

theorem eventOptionIds_congr {dbA dbB : DB} (h : dbA.dateOptions = dbB.dateOptions)
    (i : ℕ) : eventOptionIds dbA i = eventOptionIds dbB i := by
  rw [eventOptionIds, eventOptionIds, h]

/-- With a unique composite key, the rows matching a single key form
exactly the singleton of a member that carries the key. -/
theorem filter_key_unique {resps : List DateResponseRow} {rv : DateResponseRow} {d u : ℕ}
    (huniq : resps.Pairwise (fun a b =>
      ¬(a.dateOptionId = b.dateOptionId ∧ a.userId = b.userId)))
    (hrv : rv ∈ resps) (hkey : rv.dateOptionId = d ∧ rv.userId = u) :
    resps.filter (fun r => decide (r.dateOptionId = d ∧ r.userId = u)) = [rv] := by
  induction resps with
  | nil => cases hrv
  | cons x xs ih =>
    rw [List.pairwise_cons] at huniq
    obtain ⟨hx, hxs⟩ := huniq
    rcases List.mem_cons.mp hrv with rfl | hmem
    · rw [List.filter_cons_of_pos
        (p := fun r : DateResponseRow => decide (r.dateOptionId = d ∧ r.userId = u))
        (decide_eq_true hkey)]
      have hnil : xs.filter (fun r => decide (r.dateOptionId = d ∧ r.userId = u)) = [] := by
        rw [List.filter_eq_nil_iff]
        intro y hy hdy
        have hky := of_decide_eq_true hdy
        exact hx y hy ⟨hkey.1.trans hky.1.symm, hkey.2.trans hky.2.symm⟩
      rw [hnil]
    · have hxk : ¬(x.dateOptionId = d ∧ x.userId = u) := by
        intro hxkey
        exact hx rv hmem ⟨hxkey.1.trans hkey.1.symm, hxkey.2.trans hkey.2.symm⟩
      rw [List.filter_cons_of_neg (by simpa using hxk)]
      exact ih hxs hmem

/-- Clearing then upserting preserves the composite-key uniqueness. -/
theorem uniq_clear_upsert (resps : List DateResponseRow) (uid D2 : ℕ) (ids : List ℕ)
    (resp : String) (ip : Bool) (contrib : ℚ) (note : Option String)
    (huniq : uniqueResponseKeys resps) :
    uniqueResponseKeys
      (upsertResponse (clearPriorities resps uid ids) D2 uid resp ip contrib note) := by
  have hckey : ∀ r : DateResponseRow,
      ((if r.userId = uid ∧ r.dateOptionId ∈ ids then { r with isPriority := false }
        else r) : DateResponseRow).dateOptionId = r.dateOptionId ∧
      ((if r.userId = uid ∧ r.dateOptionId ∈ ids then { r with isPriority := false }
        else r) : DateResponseRow).userId = r.userId := by
    intro r
    split <;> exact ⟨rfl, rfl⟩
  have hC : uniqueResponseKeys (clearPriorities resps uid ids) := by
    rw [uniqueResponseKeys, clearPriorities, List.pairwise_map]
    refine huniq.imp ?_
    intro a b hab hcon
    exact hab ⟨((hckey a).1.symm.trans hcon.1).trans (hckey b).1,
      ((hckey a).2.symm.trans hcon.2).trans (hckey b).2⟩
  rw [upsertResponse]
  cases hfind : (clearPriorities resps uid ids).find?
      (fun r => decide (r.dateOptionId = D2 ∧ r.userId = uid)) with
  | some r0 =>
    have hskey : ∀ r : DateResponseRow,
        ((if r.dateOptionId = D2 ∧ r.userId = uid then
          { r with response := resp, isPriority := ip, contribution := contrib, note := note }
          else r) : DateResponseRow).dateOptionId = r.dateOptionId ∧
        ((if r.dateOptionId = D2 ∧ r.userId = uid then
          { r with response := resp, isPriority := ip, contribution := contrib, note := note }
          else r) : DateResponseRow).userId = r.userId := by
      intro r
      split <;> exact ⟨rfl, rfl⟩
    rw [uniqueResponseKeys, List.pairwise_map]
    refine hC.imp ?_
    intro a b hab hcon
    exact hab ⟨((hskey a).1.symm.trans hcon.1).trans (hskey b).1,
      ((hskey a).2.symm.trans hcon.2).trans (hskey b).2⟩
  | none =>
    rw [uniqueResponseKeys, List.pairwise_append]
    refine ⟨hC, List.pairwise_singleton _ _, ?_⟩
    intro a ha b hb
    rw [List.mem_singleton] at hb
    subst hb
    rintro ⟨ha1, ha2⟩
    exact (List.find?_eq_none.mp hfind a ha) (decide_eq_true ⟨ha1, ha2⟩)

/-- The core of C4: after clearing the user's priorities over the event's
date options and upserting a priority response for D2, the user's
priority-flagged responses within those options are exactly the D2 row. -/
theorem clear_upsert_exclusive (resps : List DateResponseRow) (uid D2 : ℕ) (ids : List ℕ)
    (resp : String) (contrib : ℚ) (note : Option String)
    (huniq : uniqueResponseKeys resps) (hD2 : D2 ∈ ids) :
    ((upsertResponse (clearPriorities resps uid ids) D2 uid resp true contrib note).filter
      (fun r => decide (r.userId = uid ∧ r.dateOptionId ∈ ids ∧ r.isPriority = true))).map
      (fun r => r.dateOptionId) = [D2] := by
  rw [upsertResponse]
  cases hfind : (clearPriorities resps uid ids).find?
      (fun r => decide (r.dateOptionId = D2 ∧ r.userId = uid)) with
  | some r0 =>
    rw [clearPriorities, List.map_map, filter_of_map]
    have hfun : ∀ r ∈ resps,
        (fun x : DateResponseRow =>
          decide (x.userId = uid ∧ x.dateOptionId ∈ ids ∧ x.isPriority = true))
        (((fun r : DateResponseRow => if r.dateOptionId = D2 ∧ r.userId = uid then { r with response := resp, isPriority := true, contribution := contrib, note := note } else r) ∘
          (fun r : DateResponseRow => if r.userId = uid ∧ r.dateOptionId ∈ ids then { r with isPriority := false } else r)) r) =
        decide (r.dateOptionId = D2 ∧ r.userId = uid) := by
      intro r _
      by_cases hk : r.dateOptionId = D2 ∧ r.userId = uid
      · obtain ⟨hk1, hk2⟩ := hk
        simp [Function.comp, hk1, hk2, hD2]
      · by_cases hm : r.userId = uid ∧ r.dateOptionId ∈ ids
        · obtain ⟨hm1, hm2⟩ := hm
          have hne : ¬ r.dateOptionId = D2 := fun hh => hk ⟨hh, hm1⟩
          simp [Function.comp, hm1, hm2, hne, hk]
        · have hnp : ¬(r.userId = uid ∧ r.dateOptionId ∈ ids ∧ r.isPriority = true) :=
            fun hcon => hm ⟨hcon.1, hcon.2.1⟩
          simp [Function.comp, hk, hm, hnp]
    rw [List.filter_congr hfun]
    obtain ⟨rv, hrv, hcrv⟩ := List.mem_map.mp (List.mem_of_find?_eq_some hfind)
    have hkey0pre := List.find?_some hfind
    have hkey0 : r0.dateOptionId = D2 ∧ r0.userId = uid := of_decide_eq_true hkey0pre
    have hckeyv : rv.dateOptionId = r0.dateOptionId ∧ rv.userId = r0.userId := by
      rw [← hcrv]
      constructor <;> (dsimp only; split <;> rfl)
    have hkeyv : rv.dateOptionId = D2 ∧ rv.userId = uid :=
      ⟨hckeyv.1.trans hkey0.1, hckeyv.2.trans hkey0.2⟩
    rw [filter_key_unique huniq hrv hkeyv]
    simp only [List.map_cons, List.map_nil, Function.comp]
    have hfinal : ((fun r : DateResponseRow => if r.dateOptionId = D2 ∧ r.userId = uid then { r with response := resp, isPriority := true, contribution := contrib, note := note } else r)
        ((fun r : DateResponseRow => if r.userId = uid ∧ r.dateOptionId ∈ ids then { r with isPriority := false } else r) rv)).dateOptionId = D2 := by
      obtain ⟨hv1, hv2⟩ := hkeyv
      simp [hv1, hv2, hD2]
    rw [hfinal]
  | none =>
    rw [List.filter_append]
    have h1 : (clearPriorities resps uid ids).filter
        (fun r => decide (r.userId = uid ∧ r.dateOptionId ∈ ids ∧ r.isPriority = true)) = [] := by
      rw [clearPriorities, filter_of_map]
      have hnil : resps.filter (fun r : DateResponseRow =>
          (fun x : DateResponseRow =>
            decide (x.userId = uid ∧ x.dateOptionId ∈ ids ∧ x.isPriority = true))
          ((fun r : DateResponseRow => if r.userId = uid ∧ r.dateOptionId ∈ ids then { r with isPriority := false } else r) r)) = [] := by
        rw [List.filter_eq_nil_iff]
        intro r _
        by_cases hm : r.userId = uid ∧ r.dateOptionId ∈ ids
        · obtain ⟨hm1, hm2⟩ := hm
          simp [hm1, hm2]
        · have hnp : ¬(r.userId = uid ∧ r.dateOptionId ∈ ids ∧ r.isPriority = true) :=
            fun hcon => hm ⟨hcon.1, hcon.2.1⟩
          simp [hm, hnp]
      rw [hnil, List.map_nil]
    rw [h1]
    simp [hD2]

/-- The scheduling-phase success path of `respond_to_date` with
`is_priority = true`: the handler clears the user's priorities over the
event's date options and upserts the response; events and date options
are untouched. -/
theorem respondToDate_ok_fields (db : DB) (uid eid doId : ℕ) (resp : String)
    (contribution : Option ℚ) (note : Option String) (e : EventRow)
    (he : findEvent db eid = some e) (hph : e.phase = "scheduling")
    (hids : eventOptionIds db e.id ≠ []) :
    ∃ db', respondToDate db uid eid doId resp true contribution note = .ok db' ∧
      db'.events = db.events ∧ db'.dateOptions = db.dateOptions ∧
      db'.dateResponses = upsertResponse
        (clearPriorities db.dateResponses uid (eventOptionIds db e.id))
        doId uid resp true (contribOrZero contribution) note := by
  obtain ⟨rm, hens⟩ := ensure_eq db e uid
  refine ⟨{ db with roomMembers := rm, dateResponses := upsertResponse (clearPriorities db.dateResponses uid (eventOptionIds db e.id)) doId uid resp true (contribOrZero contribution) note }, ?_, rfl, rfl, rfl⟩
  have hph2 : ¬ e.phase ≠ "scheduling" := fun h => h hph
  have hids2 : ((db.dateOptions.filter (fun d => decide (d.eventId = e.id))).map
      (fun d => d.id)) ≠ [] := by
    have h3 := hids
    rwa [eventOptionIds] at h3
  simp only [respondToDate, he, hens, eventOptionIds]
  simp [hph2, hids2]

/-- C4.  After the user sets `is_priority` on date option D2 of the event,
having previously set it on D1 of the same event, the user's responses
within the event contain exactly one priority-flagged row, and it is the
one for D2. -/
theorem c4_priority_exclusive (db : DB) (uid eid D1 D2 : ℕ) (e : EventRow)
    (r1 r2 : String) (ct1 ct2 : Option ℚ) (nt1 nt2 : Option String)
    (he : findEvent db eid = some e) (hph : e.phase = "scheduling")
    (hD1 : D1 ∈ eventOptionIds db e.id) (hD2 : D2 ∈ eventOptionIds db e.id)
    (huniq : uniqueResponseKeys db.dateResponses) :
    ∃ db1 db2, respondToDate db uid eid D1 r1 true ct1 nt1 = .ok db1 ∧
      respondToDate db1 uid eid D2 r2 true ct2 nt2 = .ok db2 ∧
      ((db2.dateResponses.filter (fun r =>
        decide (r.userId = uid ∧ r.dateOptionId ∈ eventOptionIds db2 e.id ∧
          r.isPriority = true))).map (fun r => r.dateOptionId)) = [D2] := by
  have hids_ne : eventOptionIds db e.id ≠ [] := List.ne_nil_of_mem hD1
  obtain ⟨db1, hok1, hev1, hdo1, hdr1⟩ :=
    respondToDate_ok_fields db uid eid D1 r1 ct1 nt1 e he hph hids_ne
  have he1 : findEvent db1 eid = some e := by rw [findEvent_congr hev1, he]
  have hids1 : eventOptionIds db1 e.id = eventOptionIds db e.id :=
    eventOptionIds_congr hdo1 e.id
  obtain ⟨db2, hok2, hev2, hdo2, hdr2⟩ :=
    respondToDate_ok_fields db1 uid eid D2 r2 ct2 nt2 e he1 hph
      (by rw [hids1]; exact hids_ne)
  refine ⟨db1, db2, hok1, hok2, ?_⟩
  have huniq1 : uniqueResponseKeys db1.dateResponses := by
    rw [hdr1]
    exact uniq_clear_upsert db.dateResponses uid D1 (eventOptionIds db e.id) r1 true
      (contribOrZero ct1) nt1 huniq
  have hids2 : eventOptionIds db2 e.id = eventOptionIds db e.id :=
    (eventOptionIds_congr hdo2 e.id).trans hids1
  rw [hids2, hdr2, hids1]
  exact clear_upsert_exclusive db1.dateResponses uid D2 (eventOptionIds db e.id) r2
    (contribOrZero ct2) nt2 huniq1 hD2

/-- C4 witness: two date options on a scheduling-phase event; priority on
option 41, then on option 42. -/
theorem c4_priority_exclusive_witness :
    findEvent wDB 2 = some ⟨2, 100, 7, "scheduling", [], [], none, none⟩ ∧
    (41 ∈ eventOptionIds wDB 2) ∧ (42 ∈ eventOptionIds wDB 2) ∧
    uniqueResponseKeys wDB.dateResponses ∧
    (∃ db1 db2, respondToDate wDB 9 2 41 "yes" true none none = .ok db1 ∧
      respondToDate db1 9 2 42 "yes" true none none = .ok db2 ∧
      ((db2.dateResponses.filter (fun r =>
        decide (r.userId = 9 ∧ r.dateOptionId ∈ eventOptionIds db2 2 ∧
          r.isPriority = true))).map (fun r => r.dateOptionId)) = [42]) :=
  ⟨by decide, by decide, by decide, List.Pairwise.nil,
   c4_priority_exclusive wDB 9 2 41 42 ⟨2, 100, 7, "scheduling", [], [], none, none⟩
     "yes" "yes" none none none none
     (by decide) (by decide) (by decide) (by decide) List.Pairwise.nil⟩

end EventHorizon
